import Mathlib

/-!
Verification development for the NGPL-league Texas Hold'em engine.

The definitions below are a shallow embedding of the TypeScript source:
* the card model, `evaluateHand` and `gradeStartingHand` from the poker
  utilities module, and
* the `GameEngine` state machine (`setupNewHand`, `processPlayerAction`,
  `nextTurn`, `nextPhase`, `handleShowdown`).

JavaScript numbers are embedded as `Nat`/`Int`/`ℚ` as appropriate; arrays
as `List`; the ambient RNG (deck shuffling, bot dice rolls) is modelled by
passing the shuffled deck as an explicit argument.  Purely visual string
formatting (chat bubbles, log lines) is simplified to fixed strings, and
the impure timestamp of a hand-history entry is omitted; no theorem below
depends on these display-only values.
-/

open List

/-- The four suits.  Source: `enum Suit`. -/
inductive Suit where
  | hearts | diamonds | clubs | spades
deriving DecidableEq, Repr

/-- The thirteen ranks.  Source: `enum Rank`. -/
inductive Rank where
  | two | three | four | five | six | seven | eight | nine | ten
  | jack | queen | king | ace
deriving DecidableEq, Repr

/-- A playing card.  Source: `interface Card` (the `id` string is a React
key derived from rank and suit and carries no extra information). -/
structure Card where
  rank : Rank
  suit : Suit
deriving DecidableEq, Repr

instance : Inhabited Card := ⟨⟨Rank.two, Suit.hearts⟩⟩

/-- Source: `RANK_VALUE` (2 low … Ace = 14). -/
def rankValue : Rank → Nat
  | .two => 2 | .three => 3 | .four => 4 | .five => 5 | .six => 6
  | .seven => 7 | .eight => 8 | .nine => 9 | .ten => 10
  | .jack => 11 | .queen => 12 | .king => 13 | .ace => 14

/-- Source: `getCardValue`. -/
def getCardValue (c : Card) : Nat := rankValue c.rank

/-- Source: `RANKS` (the canonical rank order used by `createDeck`). -/
def RANKS : List Rank :=
  [.two, .three, .four, .five, .six, .seven, .eight, .nine, .ten,
   .jack, .queen, .king, .ace]

/-- Source: `SUITS`. -/
def SUITS : List Suit := [.hearts, .diamonds, .clubs, .spades]

/-- Source: `createDeck` — all 52 (rank, suit) pairs, suits outer loop. -/
def createDeck : List Card :=
  (SUITS.map (fun s => RANKS.map (fun r => ⟨r, s⟩))).flatten

/-- The comparator `(a, b) => getCardValue(b) - getCardValue(a)` used by
`allCards.sort(...)`: `a` may come before `b` iff `b`'s value does not
exceed `a`'s (descending by value). -/
def byValueDesc (a b : Card) : Prop := getCardValue b ≤ getCardValue a

instance : DecidableRel byValueDesc := fun a b =>
  inferInstanceAs (Decidable (getCardValue b ≤ getCardValue a))

instance : IsTotal Card byValueDesc := ⟨fun a b => Nat.le_total (getCardValue b) (getCardValue a)⟩

instance : IsTrans Card byValueDesc := ⟨fun _ _ _ h1 h2 => Nat.le_trans h2 h1⟩

/-- `allCards.sort((a, b) => getCardValue(b) - getCardValue(a))`:
a stable sort, descending by card value (insertion sort realises exactly
the stable order JavaScript's `Array.prototype.sort` produces). -/
def sortedCards (allCards : List Card) : List Card :=
  allCards.insertionSort byValueDesc

/-- Source: `const values = allCards.map(c => getCardValue(c))`
(on the sorted array). -/
def valuesOf (allCards : List Card) : List Nat :=
  (sortedCards allCards).map getCardValue

/-- Source: `const suits = allCards.map(c => c.suit)` (on the sorted array). -/
def suitsOf (allCards : List Card) : List Suit :=
  (sortedCards allCards).map Card.suit

/-- The distinct values in first-appearance order.  On the descending
`values` array both `Object.keys(counts)` sorted descending
(`distinctValues`) and `Array.from(new Set(values))` (`uniqueSorted`)
produce the same list: the distinct values in descending order, which is
what `dedup` yields on a descending list. -/
def distinctOf (allCards : List Card) : List Nat :=
  (valuesOf allCards).dedup

/-- Keys of a JavaScript object in insertion order, skipping the suits
already seen. -/
def firstOccsAux : List Suit → List Suit → List Suit
  | [], _ => []
  | s :: rest, seen =>
    if s ∈ seen then firstOccsAux rest seen
    else s :: firstOccsAux rest (s :: seen)

/-- Keys of a JavaScript object in insertion order: each suit once, at its
first occurrence (used for `Object.keys(suitCounts)`). -/
def firstOccs (l : List Suit) : List Suit := firstOccsAux l []

/-- Source: `Object.keys(suitCounts).find(s => suitCounts[s] >= 5)`. -/
def flushSuitOf (allCards : List Card) : Option Suit :=
  (firstOccs (suitsOf allCards)).find? (fun s => 5 ≤ (suitsOf allCards).count s)

/-- Source: `allCards.filter(c => c.suit === flushSuit).map(c => getCardValue(c))`. -/
def flushCardsOf (allCards : List Card) : List Nat :=
  match flushSuitOf allCards with
  | some fs => ((sortedCards allCards).filter (fun c => c.suit = fs)).map getCardValue
  | none => []

/-- The straight scan over `uniqueSorted`:
`for i in [0, len-2]: if u[i] - u[i+1] === 1 { consecutive++; if
consecutive >= 4 straightHigh = u[i-3] } else consecutive = 0`.
The loop is phrased over the remaining tail; `w3 w2 w1` carry
`u[i-3], u[i-2], u[i-1]` (the back-references the source indexes into the
array; they are only read once `consecutive ≥ 3`, so the initial zero
padding is never consulted), and `a` is `u[i]`. -/
def straightScanAux : List Nat → Nat → Nat → Nat → Nat → Nat → Nat → Nat
  | [], _, _, _, _, _, sh => sh
  | b :: rest, w3, w2, w1, a, consecutive, sh =>
    if (a : Int) - (b : Int) = 1 then
      let c := consecutive + 1
      straightScanAux rest w2 w1 a b c (if 4 ≤ c then w3 else sh)
    else
      straightScanAux rest w2 w1 a b 0 sh

/-- The straight-high value found by the scan (0 when none). -/
def straightScan (u : List Nat) : Nat :=
  match u with
  | [] => 0
  | a :: rest => straightScanAux rest 0 0 0 a 0 0

/-- Source: straight detection including the wheel special case
`if (!straightHigh && uniqueSorted.includes(14) && ... includes(5)) straightHigh = 5`. -/
def straightHighOf (allCards : List Card) : Nat :=
  if straightScan (distinctOf allCards) = 0 ∧ 14 ∈ distinctOf allCards ∧
      2 ∈ distinctOf allCards ∧ 3 ∈ distinctOf allCards ∧
      4 ∈ distinctOf allCards ∧ 5 ∈ distinctOf allCards then 5
  else straightScan (distinctOf allCards)

/-- Source: the full-house accumulation loop
`for v of distinctValues { if (counts[v] === 3 && three === 0) three = v;
else if (counts[v] >= 2 && two === 0) two = v; }`. -/
def fhLoop (cnt : Nat → Nat) : List Nat → Nat → Nat → Nat × Nat
  | [], three, two => (three, two)
  | v :: rest, three, two =>
    if cnt v = 3 ∧ three = 0 then fhLoop cnt rest v two
    else if 2 ≤ cnt v ∧ two = 0 then fhLoop cnt rest three v
    else fhLoop cnt rest three two

/-- The `(three, two)` pair computed by the full-house loop. -/
def threeTwoOf (allCards : List Card) : Nat × Nat :=
  fhLoop (fun v => (valuesOf allCards).count v) (distinctOf allCards) 0 0

/-- Source: `pairs` — distinct values whose count is exactly 2, in
descending order. -/
def pairsOf (allCards : List Card) : List Nat :=
  (distinctOf allCards).filter (fun v => (valuesOf allCards).count v = 2)

/-- The `{ score, description }` object returned by `evaluateHand`. -/
structure EvalResult where
  score : Nat
  description : String
deriving DecidableEq, Repr

/-- The body of `evaluateHand` on the merged card array: the descending
class cascade, returning at the first match. -/
def evalCards (allCards : List Card) : EvalResult :=
  if allCards.isEmpty then ⟨0, "Waiting"⟩
  else
    match (distinctOf allCards).find? (fun v => (valuesOf allCards).count v = 4) with
    | some v => ⟨7000 + v, "Four of a Kind"⟩
    | none =>
      if (threeTwoOf allCards).1 ≠ 0 ∧ (threeTwoOf allCards).2 ≠ 0 then
        ⟨6000 + (threeTwoOf allCards).1 * 10 + (threeTwoOf allCards).2, "Full House"⟩
      else if (flushSuitOf allCards).isSome then
        ⟨5000 + (flushCardsOf allCards).headD 0, "Flush"⟩
      else if straightHighOf allCards ≠ 0 then
        ⟨4000 + straightHighOf allCards, "Straight"⟩
      else if (threeTwoOf allCards).1 ≠ 0 then
        ⟨3000 + (threeTwoOf allCards).1, "Three of a Kind"⟩
      else
        match pairsOf allCards with
        | p0 :: p1 :: _ => ⟨2000 + p0 * 10 + p1, "Two Pair"⟩
        | [p0] => ⟨1000 + p0, "Pair"⟩
        | [] => ⟨(valuesOf allCards).headD 0, "High Card"⟩

/-- Source: `evaluateHand(holeCards, communityCards)` — merge the two
arrays and run the cascade (`[...holeCards, ...communityCards]`). -/
def evaluateHand (holeCards communityCards : List Card) : EvalResult :=
  evalCards (holeCards ++ communityCards)

/-- The `{ score, grade, tip }` object returned by `gradeStartingHand`
(after `Math.ceil` the score is an integer). -/
structure GradeResult where
  score : Int
  grade : String
  tip : String
deriving DecidableEq, Repr

/-- The raw Chen-style heuristic computed by `gradeStartingHand` before
`Math.ceil`: high-card points, pair doubling with floor 5, suited bonus,
gap adjustment, suited-connector bonus.  Defined on the two cards after
the `c1/c2` ordering (`c1` is the card with the larger value, ties going
to `hand[0]`). -/
def chenRaw (c1 c2 : Card) : ℚ :=
  let v1 : ℚ := (getCardValue c1 : ℚ)
  let v2 : ℚ := (getCardValue c2 : ℚ)
  let s1 : ℚ :=
    if v1 = 14 then 10 else if v1 = 13 then 8 else if v1 = 12 then 7
    else if v1 = 11 then 6 else v1 / 2
  let s2 : ℚ := if v1 = v2 then (if s1 * 2 < 5 then 5 else s1 * 2) else s1
  let s3 : ℚ := if c1.suit = c2.suit then s2 + 2 else s2
  let gap : ℚ := v1 - v2
  let s4 : ℚ :=
    if gap = 1 then s3 + 1 else if gap = 2 then s3 - 1 else if gap = 3 then s3 - 2
    else if gap = 4 then s3 - 4 else if 5 ≤ gap then s3 - 5 else s3
  if gap ≤ 1 ∧ v1 < 12 ∧ c1.suit = c2.suit then s4 + 1 else s4

/-- The grade/tip table applied to the ceiled score
(`>= 20 S, >= 15 A, >= 10 B, >= 7 C, >= 5 D, else F`). -/
def gradeOf (score : Int) : GradeResult :=
  if 20 ≤ score then ⟨score, "S", "Monster. Raise big."⟩
  else if 15 ≤ score then ⟨score, "A", "Premium. 3-bet territory."⟩
  else if 10 ≤ score then ⟨score, "B", "Strong. Playable from any position."⟩
  else if 7 ≤ score then ⟨score, "C", "Marginal. Careful out of position."⟩
  else if 5 ≤ score then ⟨score, "D", "Speculative. Fold unless on Button."⟩
  else ⟨score, "F", "Garbage. Do not play."⟩

/-- Source: `gradeStartingHand(hand)`.  `Math.ceil` is `Rat.ceil` (the
smallest integer that is not below the argument). -/
def gradeStartingHand (hand : List Card) : GradeResult :=
  if hand.length = 2 then
    let a := hand.getD 0 default
    let b := hand.getD 1 default
    let c1 := if getCardValue b ≤ getCardValue a then a else b
    let c2 := if getCardValue b ≤ getCardValue a then b else a
    gradeOf (Rat.ceil (chenRaw c1 c2))
  else ⟨0, "?", "Wait for deal"⟩

/-! ## The betting engine (`GameEngine`) -/

/-- Source: `GamePhase`. -/
inductive GamePhase where
  | menu | shop | preFlop | flop | turn | river | showdown | gameOver
deriving DecidableEq, Repr

/-- Source: `interface Player`.  `isHuman`, `position`, `personality` and
`avatarSeed` are display/meta fields never read or written by the engine
and are omitted. -/
structure Player where
  id : String
  name : String
  chips : Int
  hand : List Card
  isActive : Bool
  isAllIn : Bool
  currentBet : Int
  actionMessage : Option String
deriving DecidableEq, Repr

instance : Inhabited Player :=
  ⟨{ id := "", name := "", chips := 0, hand := [], isActive := false,
     isAllIn := false, currentBet := 0, actionMessage := none }⟩

/-- Source: `interface HandHistoryEntry`.  The `date` field (an impure
`new Date()` timestamp) is omitted. -/
structure HandHistoryEntry where
  id : String
  handNumber : Nat
  winnerNames : List String
  winAmount : Int
  winningHand : String
deriving DecidableEq, Repr

/-- Source: `interface GameState`. -/
structure GameState where
  phase : GamePhase
  pot : Int
  communityCards : List Card
  deck : List Card
  players : List Player
  currentPlayerIndex : Nat
  dealerIndex : Nat
  minBet : Int
  currentBet : Int
  lastRaiserIndex : Option Nat
  roundLog : List String
  deckColor : String
  winners : List Player
  winningHandDesc : String
  lastPotSize : Int
  handHistory : List HandHistoryEntry
  handCount : Nat
deriving DecidableEq, Repr

/-- Source: `STARTING_CHIPS = 1000`. -/
def STARTING_CHIPS : Int := 1000

/-- Source: `BIG_BLIND = 20`. -/
def BIG_BLIND : Int := 20

/-- Source: `SMALL_BLIND = 10`. -/
def SMALL_BLIND : Int := 10

/-- The per-seat reset at the top of `setupNewHand`: empty hand,
`isActive = chips > 0`, not all-in, zero bet, no bubble text. -/
def resetPlayer (p : Player) : Player :=
  { p with hand := [], isActive := 0 < p.chips, isAllIn := false,
           currentBet := 0, actionMessage := none }

/-- Posting one blind at seat `idx`: the post is `min blind chips`, the
seat's bet becomes the post, and a seat left on zero chips is marked
all-in.  Returns the updated seats and the amount posted. -/
def postBlind (ps : List Player) (idx : Nat) (blind : Int) : List Player × Int :=
  let p := ps.getD idx default
  let amt := min blind p.chips
  let p1 := { p with chips := p.chips - amt, currentBet := amt }
  let p2 := if p1.chips = 0 then { p1 with isAllIn := true } else p1
  (ps.set idx p2, amt)

/-- `deck.pop()` twice: the dealt hand is `[last, second-to-last]`.
An exhausted deck is a fatal precondition violation in the source
(`deck.pop()!`); here the seat simply receives what remains. -/
def dealTwoFromEnd (deck : List Card) : List Card × List Card :=
  match deck.getLast? with
  | none => ([], deck)
  | some c1 =>
    match deck.dropLast.getLast? with
    | none => ([c1], deck.dropLast)
    | some c2 => ([c1, c2], deck.dropLast.dropLast)

/-- `players.forEach(p => { if (p.isActive) p.hand = [deck.pop()!, deck.pop()!] })`. -/
def dealHoleCards : List Player → List Card → List Player × List Card
  | [], deck => ([], deck)
  | p :: rest, deck =>
    if p.isActive then
      let hd := dealTwoFromEnd deck
      let tl := dealHoleCards rest hd.2
      ({ p with hand := hd.1 } :: tl.1, tl.2)
    else
      let tl := dealHoleCards rest deck
      (p :: tl.1, tl.2)

/-- `(dealerIdx + 1) % players.length` — the advanced button of
`setupNewHand`. -/
def nextDealerOf (ps : List Player) (dealerIdx : Nat) : Nat :=
  (dealerIdx + 1) % ps.length

/-- The heads-up test: exactly two seats hold chips. -/
def headsUpOf (ps : List Player) : Prop :=
  (ps.filter (fun p => 0 < p.chips)).length = 2

instance (ps : List Player) : Decidable (headsUpOf ps) :=
  inferInstanceAs (Decidable (_ = 2))

/-- The small-blind seat `setupNewHand` computes: the dealer heads-up,
`dealer + 1` otherwise. -/
def sbIndexOf (ps : List Player) (dealerIdx : Nat) : Nat :=
  if headsUpOf ps then nextDealerOf ps dealerIdx
  else (nextDealerOf ps dealerIdx + 1) % ps.length

/-- The big-blind seat `setupNewHand` computes: `dealer + 1` heads-up,
`dealer + 2` otherwise. -/
def bbIndexOf (ps : List Player) (dealerIdx : Nat) : Nat :=
  if headsUpOf ps then (nextDealerOf ps dealerIdx + 1) % ps.length
  else (nextDealerOf ps dealerIdx + 2) % ps.length

/-- Source: `GameEngine.setupNewHand`.  The source builds and shuffles a
fresh deck with the ambient RNG (`shuffleDeck(createDeck())`); the
shuffled deck is passed here as the explicit argument `shuffledDeck`.
The round-log text is simplified to a fixed string. -/
def setupNewHand (shuffledDeck : List Card) (currentPlayers : List Player)
    (dealerIdx : Nat) (handCount : Nat)
    (currentHistory : List HandHistoryEntry) : GameState :=
  let players0 := currentPlayers.map resetPlayer
  let n := players0.length
  let nextDealer := nextDealerOf players0 dealerIdx
  let sbIndex := sbIndexOf players0 dealerIdx
  let bbIndex := bbIndexOf players0 dealerIdx
  let sb := postBlind players0 sbIndex SMALL_BLIND
  let bb := postBlind sb.1 bbIndex BIG_BLIND
  let dealt := dealHoleCards bb.1 shuffledDeck
  { phase := .preFlop,
    pot := sb.2 + bb.2,
    communityCards := [],
    deck := dealt.2,
    players := dealt.1,
    currentPlayerIndex := (bbIndex + 1) % n,
    dealerIndex := nextDealer,
    minBet := BIG_BLIND,
    currentBet := BIG_BLIND,
    lastRaiserIndex := some bbIndex,
    roundLog := ["Hand Started"],
    deckColor := "blue",
    winners := [],
    winningHandDesc := "",
    lastPotSize := 0,
    handHistory := currentHistory,
    handCount := handCount + 1 }

/-- Source: `GameEngine.processPlayerAction`.  The committed amount is
capped at the seat's stack; the seat's chips and bet, the pot, and (on a
raise) the table bet, minimum raise and last-raiser pointer are updated.
A seat id absent from the state is an unrecoverable fault in the source
(`newPlayers[-1]` is `undefined`); it is modelled as the identity and is
unreachable for seats actually in the state.  Bubble/log strings are
simplified to fixed text (display only). -/
def processPlayerAction (state : GameState) (player : Player) (amount : Int)
    (actionVerb : String) (displayTotal : Option Int) : GameState :=
  match state.players.findIdx? (fun q => q.id = player.id) with
  | none => state
  | some pIndex =>
    let actualAmount := min amount player.chips
    let p0 := state.players.getD pIndex default
    let p1 : Player := { p0 with chips := p0.chips - actualAmount,
                                 currentBet := p0.currentBet + actualAmount }
    let p2 : Player := if p1.chips = 0 then { p1 with isAllIn := true } else p1
    let p3 : Player := { p2 with actionMessage := some actionVerb }
    let newPlayers := state.players.set pIndex p3
    let raise := state.currentBet < p3.currentBet
    { state with
      players := newPlayers,
      pot := state.pot + actualAmount,
      currentBet := if raise then p3.currentBet else state.currentBet,
      minBet := if raise then max state.minBet (p3.currentBet - state.currentBet)
                else state.minBet,
      lastRaiserIndex := if raise then some pIndex else state.lastRaiserIndex,
      roundLog := state.roundLog ++ [actionVerb] }

/-- A seat that may act: `isActive && !isAllIn` at index `i`. -/
def seatOk (ps : List Player) (i : Nat) : Bool :=
  (ps.getD i default).isActive && !(ps.getD i default).isAllIn

/-- The scan loop of `nextTurn`: advance `nextIndex` (wrapping) while the
seat cannot act and fewer than `players.length` seats were tried.
Returns the final `(nextIndex, loopCount)`. -/
def nextTurnLoop (ps : List Player) (nextIndex loopCount : Nat) : Nat × Nat :=
  if h : seatOk ps nextIndex = false ∧ loopCount < ps.length then
    nextTurnLoop ps ((nextIndex + 1) % ps.length) (loopCount + 1)
  else (nextIndex, loopCount)
termination_by ps.length - loopCount
decreasing_by
  exact Nat.sub_succ_lt_self _ _ h.2

/-- The first-actor scan of `nextPhase`: from the seat left of the dealer,
advance (wrapping) while the seat cannot act, bounded by the `safety < 10`
counter of the source. -/
def firstActorLoop (ps : List Player) (idx safety : Nat) : Nat :=
  if h : seatOk ps idx = false ∧ safety < 10 then
    firstActorLoop ps ((idx + 1) % ps.length) (safety + 1)
  else idx
termination_by 10 - safety
decreasing_by
  exact Nat.sub_succ_lt_self _ _ h.2

/-- The accumulation loop of `handleShowdown` over the active seats:
running best score (started at `-1`), the seats tied at the best score,
and the best hand description. -/
def showdownFold (comm : List Card) :
    List Player → Int → List Player → String → Int × List Player × String
  | [], best, ws, desc => (best, ws, desc)
  | p :: rest, best, ws, desc =>
    let r := evaluateHand p.hand comm
    if best < (r.score : Int) then showdownFold comm rest (r.score : Int) [p] r.description
    else if (r.score : Int) = best then showdownFold comm rest best (ws ++ [p]) desc
    else showdownFold comm rest best ws desc

/-- The winners computed at showdown (empty only when no seat is active). -/
def showdownWinners (state : GameState) : List Player :=
  (showdownFold state.communityCards (state.players.filter (fun p => p.isActive))
    (-1) [] "").2.1

/-- The winning-hand description computed at showdown. -/
def showdownDesc (state : GameState) : String :=
  (showdownFold state.communityCards (state.players.filter (fun p => p.isActive))
    (-1) [] "").2.2

/-- Source: `GameEngine.handleShowdown`.  Each winner is credited
`Math.floor(pot / winners.length)` (integer division), the pot is zeroed,
and a history entry is appended.  With no active seat the state is
returned unchanged. -/
def handleShowdown (state : GameState) : GameState :=
  if (state.players.filter (fun p => p.isActive)).isEmpty then state
  else
    let winners := showdownWinners state
    let bestHandDesc := showdownDesc state
    let winAmount := state.pot / (winners.length : Int)
    let newPlayers := state.players.map (fun p =>
      if winners.any (fun w => w.id = p.id) then { p with chips := p.chips + winAmount }
      else p)
    let historyEntry : HandHistoryEntry :=
      { id := "hand_" ++ toString state.handCount,
        handNumber := state.handCount,
        winnerNames := winners.map (fun w => w.name),
        winAmount := state.pot,
        winningHand := bestHandDesc }
    { state with
      players := newPlayers,
      phase := .showdown,
      pot := 0,
      lastPotSize := state.pot,
      winners := winners,
      winningHandDesc := bestHandDesc,
      roundLog := state.roundLog ++ ["Showdown"],
      handHistory := state.handHistory ++ [historyEntry] }

/-- `n` cards popped from the deck's tail, in pop order, with the
remaining deck.  An exhausted deck is a fatal precondition violation in
the source; here popping simply stops. -/
def popN : Nat → List Card → List Card × List Card
  | 0, d => ([], d)
  | k + 1, d =>
    match d.getLast? with
    | none => ([], d)
    | some c =>
      let r := popN k d.dropLast
      (c :: r.1, r.2)

/-- Ordering measure for the street recursion of `nextPhase` (it only
recurses pre-flop → flop → turn → river). -/
def phaseStreetRank : GamePhase → Nat
  | .preFlop => 3
  | .flop => 2
  | .turn => 1
  | _ => 0

/-- Source: `GameEngine.nextPhase`.  Resets every seat's bet, burns one
card and deals the street (3/1/1 community cards), recomputes the first
actor left of the dealer (safety-bounded scan), and — when nobody left
can act — immediately recurses to auto-deal the next street.  From the
river it resolves the showdown.  For the non-street phases the source
would recurse forever when no seat can act (there is no card to deal and
the phase never changes); that diverging corner is modelled as the plain
state update the source performs on its terminating path.

One street advancement of `nextPhase` (no recursion): burn one card,
deal `dealtCount` community cards from the deck's tail, move to
`nextGamePhase`, reset the table bet and minimum raise, and point the
turn at the first actor left of the dealer. -/
def streetStep (state : GameState) (nextPlayers : List Player)
    (dealtCount : Nat) (nextGamePhase : GamePhase) : GameState :=
  let dealt := popN dealtCount state.deck.dropLast
  let firstActor := firstActorLoop nextPlayers ((state.dealerIndex + 1) % state.players.length) 0
  { state with
    phase := nextGamePhase,
    deck := dealt.2,
    communityCards := state.communityCards ++ dealt.1,
    players := nextPlayers,
    currentBet := 0,
    minBet := BIG_BLIND,
    currentPlayerIndex := firstActor,
    lastRaiserIndex := some firstActor,
    roundLog := state.roundLog ++ ["--- street ---"] }

/-- No seat both active and not all-in remains: nobody can bet, so the
source auto-deals the next street. -/
def noActorLeft (nextPlayers : List Player) : Prop :=
  (nextPlayers.filter (fun p => p.isActive && !p.isAllIn)).length = 0

instance (nextPlayers : List Player) : Decidable (noActorLeft nextPlayers) :=
  inferInstanceAs (Decidable (_ = 0))

def nextPhase (state : GameState) : GameState :=
  let nextPlayers : List Player := state.players.map (fun p => { p with currentBet := 0 })
  match h : state.phase with
  | .preFlop =>
    let stepped := streetStep state nextPlayers 3 .flop
    if noActorLeft nextPlayers then nextPhase stepped else stepped
  | .flop =>
    let stepped := streetStep state nextPlayers 1 .turn
    if noActorLeft nextPlayers then nextPhase stepped else stepped
  | .turn =>
    let stepped := streetStep state nextPlayers 1 .river
    if noActorLeft nextPlayers then nextPhase stepped else stepped
  | .river => handleShowdown { state with players := nextPlayers }
  | ph =>
    -- Non-street phase: no card is dealt and the phase does not change.
    -- When additionally no seat can act the source recurses with an
    -- unchanged phase and diverges; the terminating path's state update
    -- is used for that corner as well.
    let firstActor := firstActorLoop nextPlayers ((state.dealerIndex + 1) % state.players.length) 0
    { state with
      phase := ph,
      players := nextPlayers,
      currentBet := 0,
      minBet := BIG_BLIND,
      currentPlayerIndex := firstActor,
      lastRaiserIndex := some firstActor,
      roundLog := state.roundLog ++ ["--- street ---"] }
termination_by phaseStreetRank state.phase
decreasing_by
  all_goals simp [h, streetStep, phaseStreetRank]

/-- The scan `nextTurn` performs: from the seat after the current one,
wrapping, bounded by one lap. -/
def nextTurnScan (state : GameState) : Nat × Nat :=
  nextTurnLoop state.players
    ((state.currentPlayerIndex + 1) % state.players.length) 0

/-- Source: `GameEngine.nextTurn`.  Scan forward (wrapping, at most one
lap) for the next seat that can act; with none, or when the found seat is
the last raiser with a matched bet (the round is closed), advance the
street; otherwise only the turn pointer moves. -/
def nextTurn (state : GameState) : GameState :=
  let scan := nextTurnScan state
  if state.players.length ≤ scan.2 then nextPhase state
  else
    let playerToAct := state.players.getD scan.1 default
    if state.lastRaiserIndex = some scan.1 ∧ playerToAct.currentBet = state.currentBet then
      nextPhase state
    else { state with currentPlayerIndex := scan.1 }

/-! ## Basic bounds for the evaluator -/

theorem rankValue_bounds (r : Rank) : 2 ≤ rankValue r ∧ rankValue r ≤ 14 := by
  cases r <;> simp [rankValue]

theorem sortedCards_perm (l : List Card) : sortedCards l ~ l :=
  List.perm_insertionSort _ l

theorem mem_valuesOf_bounds {l : List Card} {v : Nat} (h : v ∈ valuesOf l) :
    2 ≤ v ∧ v ≤ 14 := by
  rcases List.mem_map.1 h with ⟨c, _, rfl⟩
  exact rankValue_bounds c.rank

theorem mem_distinctOf {l : List Card} {v : Nat} (h : v ∈ distinctOf l) :
    v ∈ valuesOf l :=
  List.dedup_subset _ h

theorem valuesOf_length (l : List Card) : (valuesOf l).length = l.length := by
  unfold valuesOf
  rw [List.length_map]
  exact (sortedCards_perm l).length_eq

theorem straightScanAux_le (rest : List Nat) :
    ∀ w3 w2 w1 a c sh, (∀ x ∈ rest, x ≤ 14) → w3 ≤ 14 → w2 ≤ 14 → w1 ≤ 14 →
      a ≤ 14 → sh ≤ 14 → straightScanAux rest w3 w2 w1 a c sh ≤ 14 := by
  induction rest with
  | nil => intro _ _ _ _ _ sh _ _ _ _ _ h; simpa [straightScanAux] using h
  | cons b rest ih =>
    intro w3 w2 w1 a c sh hall h3 h2 h1 ha hsh
    have hb : b ≤ 14 := hall b (by simp)
    have hrest : ∀ x ∈ rest, x ≤ 14 := fun x hx => hall x (by simp [hx])
    simp only [straightScanAux]
    split
    · exact ih w2 w1 a b _ _ hrest h2 h1 ha hb (by split <;> [exact h3; exact hsh])
    · exact ih w2 w1 a b _ _ hrest h2 h1 ha hb hsh

theorem straightHighOf_le (l : List Card) : straightHighOf l ≤ 14 := by
  unfold straightHighOf
  split
  · omega
  · unfold straightScan
    split
    · omega
    · next a rest heq =>
      have hmem : ∀ x ∈ a :: rest, x ≤ 14 := by
        intro x hx
        have : x ∈ distinctOf l := heq ▸ hx
        exact (mem_valuesOf_bounds (mem_distinctOf this)).2
      exact straightScanAux_le rest 0 0 0 a 0 0
        (fun x hx => hmem x (by simp [hx])) (by omega) (by omega) (by omega)
        (hmem a (by simp)) (by omega)

theorem fhLoop_mem (cnt : Nat → Nat) :
    ∀ (l : List Nat) (three two : Nat),
      ((fhLoop cnt l three two).1 = three ∨ (fhLoop cnt l three two).1 ∈ l) ∧
      ((fhLoop cnt l three two).2 = two ∨ (fhLoop cnt l three two).2 ∈ l) := by
  intro l
  induction l with
  | nil => intro three two; simp [fhLoop]
  | cons v rest ih =>
    intro three two
    simp only [fhLoop]
    split
    · rcases ih v two with ⟨h1, h2⟩
      constructor
      · rcases h1 with h | h
        · exact Or.inr (by rw [h]; exact List.mem_cons_self v rest)
        · exact Or.inr (List.mem_cons_of_mem _ h)
      · rcases h2 with h | h
        · exact Or.inl h
        · exact Or.inr (List.mem_cons_of_mem _ h)
    split
    · rcases ih three v with ⟨h1, h2⟩
      constructor
      · rcases h1 with h | h
        · exact Or.inl h
        · exact Or.inr (List.mem_cons_of_mem _ h)
      · rcases h2 with h | h
        · exact Or.inr (by rw [h]; exact List.mem_cons_self v rest)
        · exact Or.inr (List.mem_cons_of_mem _ h)
    · rcases ih three two with ⟨h1, h2⟩
      constructor
      · rcases h1 with h | h
        · exact Or.inl h
        · exact Or.inr (List.mem_cons_of_mem _ h)
      · rcases h2 with h | h
        · exact Or.inl h
        · exact Or.inr (List.mem_cons_of_mem _ h)

theorem threeTwoOf_bounds (l : List Card) :
    ((threeTwoOf l).1 ≠ 0 → 2 ≤ (threeTwoOf l).1 ∧ (threeTwoOf l).1 ≤ 14) ∧
    ((threeTwoOf l).2 ≠ 0 → 2 ≤ (threeTwoOf l).2 ∧ (threeTwoOf l).2 ≤ 14) := by
  have h := fhLoop_mem (fun v => (valuesOf l).count v) (distinctOf l) 0 0
  unfold threeTwoOf
  constructor
  · intro hne
    rcases h.1 with h1 | h1
    · exact absurd h1 hne
    · exact mem_valuesOf_bounds (mem_distinctOf h1)
  · intro hne
    rcases h.2 with h2 | h2
    · exact absurd h2 hne
    · exact mem_valuesOf_bounds (mem_distinctOf h2)

theorem pairsOf_subset (l : List Card) : pairsOf l ⊆ distinctOf l := by
  unfold pairsOf
  exact fun v hv => (List.mem_filter.1 hv).1

theorem flushSuit_count {l : List Card} {fs : Suit}
    (h : flushSuitOf l = some fs) : 5 ≤ (suitsOf l).count fs := by
  unfold flushSuitOf at h
  have h2 := List.find?_some h
  simpa using h2

theorem flushCards_headD_bounds {l : List Card} {fs : Suit}
    (h : flushSuitOf l = some fs) :
    2 ≤ (flushCardsOf l).headD 0 ∧ (flushCardsOf l).headD 0 ≤ 14 := by
  have hp : (5 ≤ (suitsOf l).count fs) := flushSuit_count h
  have hpos : 0 < (suitsOf l).count fs := by omega
  have hmem : fs ∈ suitsOf l := List.count_pos_iff.1 hpos
  rcases List.mem_map.1 hmem with ⟨c, hc, rfl⟩
  have hcf : c ∈ (sortedCards l).filter (fun d => d.suit = c.suit) :=
    List.mem_filter.2 ⟨hc, by simp⟩
  have hne : ((sortedCards l).filter (fun d => d.suit = c.suit)).map getCardValue ≠ [] := by
    simp only [ne_eq, List.map_eq_nil_iff]
    intro hnil
    rw [hnil] at hcf
    exact absurd hcf (List.not_mem_nil c)
  have hfc : flushCardsOf l =
      ((sortedCards l).filter (fun d => d.suit = c.suit)).map getCardValue := by
    unfold flushCardsOf
    rw [h]
  have hhd : (flushCardsOf l).headD 0 ∈ (flushCardsOf l) := by
    rw [hfc, List.headD_eq_head?, List.head?_eq_head hne]
    exact List.head_mem hne
  have : (flushCardsOf l).headD 0 ∈ valuesOf l := by
    rw [hfc] at hhd
    rcases List.mem_map.1 hhd with ⟨d, hd, hdv⟩
    rw [hfc, ← hdv]
    exact List.mem_map_of_mem _ (List.mem_of_mem_filter hd)
  exact mem_valuesOf_bounds this

theorem valuesOf_headD_bounds {l : List Card} (h : ¬ l.isEmpty) :
    2 ≤ (valuesOf l).headD 0 ∧ (valuesOf l).headD 0 ≤ 14 := by
  have hne : valuesOf l ≠ [] := by
    intro hnil
    have := valuesOf_length l
    rw [hnil] at this
    simp only [List.length_nil] at this
    rw [List.isEmpty_iff] at h
    exact h (List.length_eq_zero.1 this.symm)
  have : (valuesOf l).headD 0 ∈ valuesOf l := by
    rw [List.headD_eq_head?, List.head?_eq_head hne]
    exact List.head_mem hne
  exact mem_valuesOf_bounds this

/-- Case analysis of the evaluator: each description determines a band of
scores, and the bands are pairwise disjoint and ordered by class. -/
theorem evalCards_cases (l : List Card) :
    ((evalCards l).description = "Waiting" ∧ (evalCards l).score = 0) ∨
    ((evalCards l).description = "Four of a Kind" ∧
      7002 ≤ (evalCards l).score ∧ (evalCards l).score ≤ 7014) ∨
    ((evalCards l).description = "Full House" ∧
      6022 ≤ (evalCards l).score ∧ (evalCards l).score ≤ 6154) ∨
    ((evalCards l).description = "Flush" ∧
      5002 ≤ (evalCards l).score ∧ (evalCards l).score ≤ 5014) ∨
    ((evalCards l).description = "Straight" ∧
      4001 ≤ (evalCards l).score ∧ (evalCards l).score ≤ 4014) ∨
    ((evalCards l).description = "Three of a Kind" ∧
      3002 ≤ (evalCards l).score ∧ (evalCards l).score ≤ 3014) ∨
    ((evalCards l).description = "Two Pair" ∧
      2022 ≤ (evalCards l).score ∧ (evalCards l).score ≤ 2154) ∨
    ((evalCards l).description = "Pair" ∧
      1002 ≤ (evalCards l).score ∧ (evalCards l).score ≤ 1014) ∨
    ((evalCards l).description = "High Card" ∧
      2 ≤ (evalCards l).score ∧ (evalCards l).score ≤ 14) := by
  unfold evalCards
  split
  · exact Or.inl ⟨rfl, rfl⟩
  · next hne =>
    split
    · next v hv =>
      have hv1 : v ∈ distinctOf l := List.mem_of_find?_eq_some hv
      have hv2 := mem_valuesOf_bounds (mem_distinctOf hv1)
      exact Or.inr (Or.inl ⟨rfl, by simp only []; omega, by simp only []; omega⟩)
    · next hnone =>
      split
      · next h32 =>
        have hb := threeTwoOf_bounds l
        have hb1 := hb.1 h32.1
        have hb2 := hb.2 h32.2
        refine Or.inr (Or.inr (Or.inl ⟨rfl, ?_, ?_⟩)) <;> simp only [] <;> omega
      · next h32 =>
        split
        · next hfl =>
          rcases Option.isSome_iff_exists.1 hfl with ⟨fs, hfs⟩
          have hb := flushCards_headD_bounds hfs
          refine Or.inr (Or.inr (Or.inr (Or.inl ⟨rfl, ?_, ?_⟩))) <;>
            simp only [] <;> omega
        · next hnofl =>
          split
          · next hst =>
            have hb := straightHighOf_le l
            refine Or.inr (Or.inr (Or.inr (Or.inr (Or.inl ⟨rfl, ?_, ?_⟩)))) <;>
              simp only [] <;> omega
          · next hnost =>
            split
            · next h3 =>
              have hb := (threeTwoOf_bounds l).1 h3
              refine Or.inr (Or.inr (Or.inr (Or.inr (Or.inr (Or.inl ⟨rfl, ?_, ?_⟩))))) <;>
                simp only [] <;> omega
            · next h3 =>
              split
              · next p0 p1 tail heq =>
                have hp0 : p0 ∈ pairsOf l := by rw [heq]; exact List.mem_cons_self _ _
                have hp1 : p1 ∈ pairsOf l := by
                  rw [heq]; exact List.mem_cons_of_mem _ (List.mem_cons_self _ _)
                have hb0 := mem_valuesOf_bounds (mem_distinctOf (pairsOf_subset l hp0))
                have hb1 := mem_valuesOf_bounds (mem_distinctOf (pairsOf_subset l hp1))
                refine Or.inr (Or.inr (Or.inr (Or.inr (Or.inr (Or.inr
                  (Or.inl ⟨rfl, ?_, ?_⟩)))))) <;> simp only [] <;> omega
              · next p0 heq =>
                have hp0 : p0 ∈ pairsOf l := by rw [heq]; exact List.mem_cons_self _ _
                have hb0 := mem_valuesOf_bounds (mem_distinctOf (pairsOf_subset l hp0))
                refine Or.inr (Or.inr (Or.inr (Or.inr (Or.inr (Or.inr (Or.inr
                  (Or.inl ⟨rfl, ?_, ?_⟩)))))) ) <;> simp only [] <;> omega
              · next heq =>
                have hb := valuesOf_headD_bounds (l := l) (by simpa using hne)
                refine Or.inr (Or.inr (Or.inr (Or.inr (Or.inr (Or.inr (Or.inr
                  (Or.inr ⟨rfl, ?_, ?_⟩)))))) ) <;> simp only [] <;> omega

theorem score_of_desc_waiting {h c : List Card}
    (hd : (evaluateHand h c).description = "Waiting") :
    (evaluateHand h c).score = 0 := by
  rcases evalCards_cases (h ++ c) with hc | hc | hc | hc | hc | hc | hc | hc | hc <;>
    first
      | exact hc.2
      | (exfalso; rw [show evaluateHand h c = evalCards (h ++ c) from rfl, hc.1] at hd; simp at hd)

theorem score_of_desc_fourKind {h c : List Card}
    (hd : (evaluateHand h c).description = "Four of a Kind") :
    7002 ≤ (evaluateHand h c).score ∧ (evaluateHand h c).score ≤ 7014 := by
  rcases evalCards_cases (h ++ c) with hc | hc | hc | hc | hc | hc | hc | hc | hc <;>
    first
      | exact hc.2
      | (exfalso; rw [show evaluateHand h c = evalCards (h ++ c) from rfl, hc.1] at hd; simp at hd)

theorem score_of_desc_fullHouse {h c : List Card}
    (hd : (evaluateHand h c).description = "Full House") :
    6022 ≤ (evaluateHand h c).score ∧ (evaluateHand h c).score ≤ 6154 := by
  rcases evalCards_cases (h ++ c) with hc | hc | hc | hc | hc | hc | hc | hc | hc <;>
    first
      | exact hc.2
      | (exfalso; rw [show evaluateHand h c = evalCards (h ++ c) from rfl, hc.1] at hd; simp at hd)

theorem score_of_desc_flush {h c : List Card}
    (hd : (evaluateHand h c).description = "Flush") :
    5002 ≤ (evaluateHand h c).score ∧ (evaluateHand h c).score ≤ 5014 := by
  rcases evalCards_cases (h ++ c) with hc | hc | hc | hc | hc | hc | hc | hc | hc <;>
    first
      | exact hc.2
      | (exfalso; rw [show evaluateHand h c = evalCards (h ++ c) from rfl, hc.1] at hd; simp at hd)

theorem score_of_desc_straight {h c : List Card}
    (hd : (evaluateHand h c).description = "Straight") :
    4001 ≤ (evaluateHand h c).score ∧ (evaluateHand h c).score ≤ 4014 := by
  rcases evalCards_cases (h ++ c) with hc | hc | hc | hc | hc | hc | hc | hc | hc <;>
    first
      | exact hc.2
      | (exfalso; rw [show evaluateHand h c = evalCards (h ++ c) from rfl, hc.1] at hd; simp at hd)

theorem score_of_desc_trips {h c : List Card}
    (hd : (evaluateHand h c).description = "Three of a Kind") :
    3002 ≤ (evaluateHand h c).score ∧ (evaluateHand h c).score ≤ 3014 := by
  rcases evalCards_cases (h ++ c) with hc | hc | hc | hc | hc | hc | hc | hc | hc <;>
    first
      | exact hc.2
      | (exfalso; rw [show evaluateHand h c = evalCards (h ++ c) from rfl, hc.1] at hd; simp at hd)

theorem score_of_desc_twoPair {h c : List Card}
    (hd : (evaluateHand h c).description = "Two Pair") :
    2022 ≤ (evaluateHand h c).score ∧ (evaluateHand h c).score ≤ 2154 := by
  rcases evalCards_cases (h ++ c) with hc | hc | hc | hc | hc | hc | hc | hc | hc <;>
    first
      | exact hc.2
      | (exfalso; rw [show evaluateHand h c = evalCards (h ++ c) from rfl, hc.1] at hd; simp at hd)

theorem score_of_desc_pair {h c : List Card}
    (hd : (evaluateHand h c).description = "Pair") :
    1002 ≤ (evaluateHand h c).score ∧ (evaluateHand h c).score ≤ 1014 := by
  rcases evalCards_cases (h ++ c) with hc | hc | hc | hc | hc | hc | hc | hc | hc <;>
    first
      | exact hc.2
      | (exfalso; rw [show evaluateHand h c = evalCards (h ++ c) from rfl, hc.1] at hd; simp at hd)

theorem score_of_desc_highCard {h c : List Card}
    (hd : (evaluateHand h c).description = "High Card") :
    2 ≤ (evaluateHand h c).score ∧ (evaluateHand h c).score ≤ 14 := by
  rcases evalCards_cases (h ++ c) with hc | hc | hc | hc | hc | hc | hc | hc | hc <;>
    first
      | exact hc.2
      | (exfalso; rw [show evaluateHand h c = evalCards (h ++ c) from rfl, hc.1] at hd; simp at hd)

/-- C1 (amended): the score encodes the evaluator's category through fixed,
pairwise-disjoint, ascending bands — 7000s four of a kind, 6000s full
house, 5000s flush, 4000s straight, 3000s three of a kind, 2000s two pair,
1000s pair, below 1000 high card (0 for the empty "Waiting" result) — so
numeric comparison across categories follows the evaluator's class
priority.  (As the counterexample shows, within a category the tie-break
encoding is not consistent with standard poker hand strength, and equal
scores need not be true ties.) -/
theorem claim_C1_score_class_bands (hole comm : List Card) :
    ((evaluateHand hole comm).description = "Waiting" →
      (evaluateHand hole comm).score = 0) ∧
    ((evaluateHand hole comm).description = "High Card" →
      2 ≤ (evaluateHand hole comm).score ∧ (evaluateHand hole comm).score ≤ 14) ∧
    ((evaluateHand hole comm).description = "Pair" →
      1002 ≤ (evaluateHand hole comm).score ∧ (evaluateHand hole comm).score ≤ 1014) ∧
    ((evaluateHand hole comm).description = "Two Pair" →
      2022 ≤ (evaluateHand hole comm).score ∧ (evaluateHand hole comm).score ≤ 2154) ∧
    ((evaluateHand hole comm).description = "Three of a Kind" →
      3002 ≤ (evaluateHand hole comm).score ∧ (evaluateHand hole comm).score ≤ 3014) ∧
    ((evaluateHand hole comm).description = "Straight" →
      4001 ≤ (evaluateHand hole comm).score ∧ (evaluateHand hole comm).score ≤ 4014) ∧
    ((evaluateHand hole comm).description = "Flush" →
      5002 ≤ (evaluateHand hole comm).score ∧ (evaluateHand hole comm).score ≤ 5014) ∧
    ((evaluateHand hole comm).description = "Full House" →
      6022 ≤ (evaluateHand hole comm).score ∧ (evaluateHand hole comm).score ≤ 6154) ∧
    ((evaluateHand hole comm).description = "Four of a Kind" →
      7002 ≤ (evaluateHand hole comm).score ∧ (evaluateHand hole comm).score ≤ 7014) :=
  ⟨score_of_desc_waiting, score_of_desc_highCard, score_of_desc_pair,
   score_of_desc_twoPair, score_of_desc_trips, score_of_desc_straight,
   score_of_desc_flush, score_of_desc_fullHouse, score_of_desc_fourKind⟩

/-- Witness for C1: the full-house band evaluated at a concrete full house
(kings full of queens scores 6142 ∈ [6022, 6154]). -/
theorem claim_C1_score_class_bands_witness :
    6022 ≤ (evaluateHand [⟨.king, .spades⟩, ⟨.king, .hearts⟩]
      [⟨.king, .diamonds⟩, ⟨.queen, .spades⟩, ⟨.queen, .hearts⟩]).score ∧
    (evaluateHand [⟨.king, .spades⟩, ⟨.king, .hearts⟩]
      [⟨.king, .diamonds⟩, ⟨.queen, .spades⟩, ⟨.queen, .hearts⟩]).score ≤ 6154 :=
  (claim_C1_score_class_bands _ _).2.2.2.2.2.2.2.1 (by decide)

/-- Counterexample to C1 as stated: threes full of deuces (hole 3♠3♥ on
board 3♦2♣2♦) is strictly stronger under standard poker rules than deuces
full of kings (hole 2♠2♥ on board 2♦K♣K♦) — full houses compare by the
trips rank first — yet the evaluator scores the stronger hand 6032 and
the weaker hand 6033 (the `6000 + three*10 + two` encoding lets the pair
rank overtake a one-step difference in trips rank), so numeric comparison
is not a total order consistent with standard poker hand strength. -/
theorem claim_C1_counterexample :
    evaluateHand [⟨.three, .spades⟩, ⟨.three, .hearts⟩]
      [⟨.three, .diamonds⟩, ⟨.two, .clubs⟩, ⟨.two, .diamonds⟩] =
      ⟨6032, "Full House"⟩ ∧
    evaluateHand [⟨.two, .spades⟩, ⟨.two, .hearts⟩]
      [⟨.two, .diamonds⟩, ⟨.king, .clubs⟩, ⟨.king, .diamonds⟩] =
      ⟨6033, "Full House"⟩ ∧
    (6032 : Nat) < 6033 := by
  refine ⟨by decide, by decide, by decide⟩

/-- C4: strict class ordering of scores holds for all evaluator inputs:
every Four of a Kind outscores every Full House, every Full House every
Flush, every Flush every Straight, every Straight every Three of a Kind,
every Three of a Kind every Two Pair, every Two Pair every Pair, and
every Pair every High Card. -/
theorem claim_C4_class_ordering :
    (∀ h1 c1 h2 c2, (evaluateHand h1 c1).description = "Four of a Kind" →
      (evaluateHand h2 c2).description = "Full House" →
      (evaluateHand h2 c2).score < (evaluateHand h1 c1).score) ∧
    (∀ h1 c1 h2 c2, (evaluateHand h1 c1).description = "Full House" →
      (evaluateHand h2 c2).description = "Flush" →
      (evaluateHand h2 c2).score < (evaluateHand h1 c1).score) ∧
    (∀ h1 c1 h2 c2, (evaluateHand h1 c1).description = "Flush" →
      (evaluateHand h2 c2).description = "Straight" →
      (evaluateHand h2 c2).score < (evaluateHand h1 c1).score) ∧
    (∀ h1 c1 h2 c2, (evaluateHand h1 c1).description = "Straight" →
      (evaluateHand h2 c2).description = "Three of a Kind" →
      (evaluateHand h2 c2).score < (evaluateHand h1 c1).score) ∧
    (∀ h1 c1 h2 c2, (evaluateHand h1 c1).description = "Three of a Kind" →
      (evaluateHand h2 c2).description = "Two Pair" →
      (evaluateHand h2 c2).score < (evaluateHand h1 c1).score) ∧
    (∀ h1 c1 h2 c2, (evaluateHand h1 c1).description = "Two Pair" →
      (evaluateHand h2 c2).description = "Pair" →
      (evaluateHand h2 c2).score < (evaluateHand h1 c1).score) ∧
    (∀ h1 c1 h2 c2, (evaluateHand h1 c1).description = "Pair" →
      (evaluateHand h2 c2).description = "High Card" →
      (evaluateHand h2 c2).score < (evaluateHand h1 c1).score) := by
  refine ⟨?_, ?_, ?_, ?_, ?_, ?_, ?_⟩ <;> intro h1 c1 h2 c2 hd1 hd2
  · have b1 := score_of_desc_fourKind hd1
    have b2 := score_of_desc_fullHouse hd2
    omega
  · have b1 := score_of_desc_fullHouse hd1
    have b2 := score_of_desc_flush hd2
    omega
  · have b1 := score_of_desc_flush hd1
    have b2 := score_of_desc_straight hd2
    omega
  · have b1 := score_of_desc_straight hd1
    have b2 := score_of_desc_trips hd2
    omega
  · have b1 := score_of_desc_trips hd1
    have b2 := score_of_desc_twoPair hd2
    omega
  · have b1 := score_of_desc_twoPair hd1
    have b2 := score_of_desc_pair hd2
    omega
  · have b1 := score_of_desc_pair hd1
    have b2 := score_of_desc_highCard hd2
    omega

/-- Witness for C4: all seven adjacent class comparisons discharged at
concrete hands (quads aces, kings full, ace-high flush, nine-high
straight, trip queens, jacks over nines, pair of tens, ace high). -/
theorem claim_C4_class_ordering_witness :
    ((evaluateHand [⟨.king, .spades⟩, ⟨.king, .hearts⟩]
        [⟨.king, .diamonds⟩, ⟨.queen, .spades⟩, ⟨.queen, .hearts⟩]).score <
      (evaluateHand [⟨.ace, .spades⟩, ⟨.ace, .hearts⟩]
        [⟨.ace, .diamonds⟩, ⟨.ace, .clubs⟩, ⟨.king, .clubs⟩]).score) ∧
    ((evaluateHand [⟨.ace, .spades⟩, ⟨.king, .spades⟩]
        [⟨.nine, .spades⟩, ⟨.five, .spades⟩, ⟨.three, .spades⟩]).score <
      (evaluateHand [⟨.king, .spades⟩, ⟨.king, .hearts⟩]
        [⟨.king, .diamonds⟩, ⟨.queen, .spades⟩, ⟨.queen, .hearts⟩]).score) ∧
    ((evaluateHand [⟨.nine, .hearts⟩, ⟨.eight, .spades⟩]
        [⟨.seven, .diamonds⟩, ⟨.six, .clubs⟩, ⟨.five, .spades⟩]).score <
      (evaluateHand [⟨.ace, .spades⟩, ⟨.king, .spades⟩]
        [⟨.nine, .spades⟩, ⟨.five, .spades⟩, ⟨.three, .spades⟩]).score) ∧
    ((evaluateHand [⟨.queen, .spades⟩, ⟨.queen, .hearts⟩]
        [⟨.queen, .diamonds⟩, ⟨.seven, .clubs⟩, ⟨.two, .hearts⟩]).score <
      (evaluateHand [⟨.nine, .hearts⟩, ⟨.eight, .spades⟩]
        [⟨.seven, .diamonds⟩, ⟨.six, .clubs⟩, ⟨.five, .spades⟩]).score) ∧
    ((evaluateHand [⟨.jack, .spades⟩, ⟨.jack, .hearts⟩]
        [⟨.nine, .diamonds⟩, ⟨.nine, .clubs⟩, ⟨.two, .hearts⟩]).score <
      (evaluateHand [⟨.queen, .spades⟩, ⟨.queen, .hearts⟩]
        [⟨.queen, .diamonds⟩, ⟨.seven, .clubs⟩, ⟨.two, .hearts⟩]).score) ∧
    ((evaluateHand [⟨.ten, .spades⟩, ⟨.ten, .hearts⟩]
        [⟨.eight, .diamonds⟩, ⟨.six, .clubs⟩, ⟨.two, .hearts⟩]).score <
      (evaluateHand [⟨.jack, .spades⟩, ⟨.jack, .hearts⟩]
        [⟨.nine, .diamonds⟩, ⟨.nine, .clubs⟩, ⟨.two, .hearts⟩]).score) ∧
    ((evaluateHand [⟨.ace, .spades⟩, ⟨.queen, .hearts⟩]
        [⟨.nine, .diamonds⟩, ⟨.five, .clubs⟩, ⟨.two, .hearts⟩]).score <
      (evaluateHand [⟨.ten, .spades⟩, ⟨.ten, .hearts⟩]
        [⟨.eight, .diamonds⟩, ⟨.six, .clubs⟩, ⟨.two, .hearts⟩]).score) :=
  ⟨claim_C4_class_ordering.1 _ _ _ _ (by decide) (by decide),
   claim_C4_class_ordering.2.1 _ _ _ _ (by decide) (by decide),
   claim_C4_class_ordering.2.2.1 _ _ _ _ (by decide) (by decide),
   claim_C4_class_ordering.2.2.2.1 _ _ _ _ (by decide) (by decide),
   claim_C4_class_ordering.2.2.2.2.1 _ _ _ _ (by decide) (by decide),
   claim_C4_class_ordering.2.2.2.2.2.1 _ _ _ _ (by decide) (by decide),
   claim_C4_class_ordering.2.2.2.2.2.2 _ _ _ _ (by decide) (by decide)⟩

/-- C10: the evaluator is total at its interface: with no cards at all it
returns score 0 and description "Waiting" rather than failing, and every
input produces one of the nine fixed descriptions (no input length drives
the evaluation out of bounds). -/
theorem claim_C10_totality :
    evaluateHand [] [] = ⟨0, "Waiting"⟩ ∧
    ∀ h c, (evaluateHand h c).description ∈
      ["Waiting", "Four of a Kind", "Full House", "Flush", "Straight",
       "Three of a Kind", "Two Pair", "Pair", "High Card"] := by
  refine ⟨by decide, ?_⟩
  intro h c
  rcases evalCards_cases (h ++ c) with hc | hc | hc | hc | hc | hc | hc | hc | hc <;>
    (rw [show (evaluateHand h c).description = (evalCards (h ++ c)).description from rfl, hc.1]; simp)

/-! ## Permutation invariance of the evaluator (C5) -/

theorem sortedCards_sorted (l : List Card) :
    (sortedCards l).Sorted byValueDesc :=
  List.sorted_insertionSort byValueDesc l

theorem valuesOf_sorted (l : List Card) :
    (valuesOf l).Sorted (fun x y : Nat => y ≤ x) :=
  List.Pairwise.map getCardValue (fun _ _ h => h) (sortedCards_sorted l)

theorem valuesOf_perm {l l' : List Card} (h : l ~ l') :
    valuesOf l ~ valuesOf l' :=
  (((sortedCards_perm l).map getCardValue).trans (h.map getCardValue)).trans
    ((sortedCards_perm l').map getCardValue).symm

theorem valuesOf_perm_eq {l l' : List Card} (h : l ~ l') :
    valuesOf l = valuesOf l' :=
  @List.eq_of_perm_of_sorted Nat (fun x y => y ≤ x)
    ⟨fun _ _ h1 h2 => Nat.le_antisymm h2 h1⟩ _ _
    (valuesOf_perm h) (valuesOf_sorted l) (valuesOf_sorted l')

theorem suitsOf_count_perm {l l' : List Card} (h : l ~ l') (s : Suit) :
    (suitsOf l).count s = (suitsOf l').count s :=
  ((((sortedCards_perm l).map Card.suit).trans (h.map Card.suit)).trans
    ((sortedCards_perm l').map Card.suit).symm).count_eq s

theorem suitsOf_length_eq (l : List Card) : (suitsOf l).length = l.length := by
  unfold suitsOf
  rw [List.length_map]
  exact (sortedCards_perm l).length_eq

theorem mem_firstOccsAux {s : Suit} :
    ∀ (u seen : List Suit), s ∈ firstOccsAux u seen ↔ s ∈ u ∧ s ∉ seen := by
  intro u
  induction u with
  | nil => intro seen; simp [firstOccsAux]
  | cons t rest ih =>
    intro seen
    simp only [firstOccsAux]
    split
    · next hts =>
      rw [ih seen]
      constructor
      · rintro ⟨hr, hs⟩
        exact ⟨List.mem_cons_of_mem _ hr, hs⟩
      · rintro ⟨hr, hs⟩
        rcases List.mem_cons.1 hr with rfl | hr
        · exact absurd hts hs
        · exact ⟨hr, hs⟩
    · next hts =>
      rw [List.mem_cons, ih (t :: seen)]
      constructor
      · rintro (rfl | ⟨hr, hs⟩)
        · exact ⟨List.mem_cons_self _ _, hts⟩
        · exact ⟨List.mem_cons_of_mem _ hr,
            fun hx => hs (List.mem_cons_of_mem _ hx)⟩
      · rintro ⟨hr, hs⟩
        rcases List.mem_cons.1 hr with rfl | hr
        · exact Or.inl rfl
        · by_cases hst : s = t
          · exact Or.inl hst
          · exact Or.inr ⟨hr, fun hx => by
              rcases List.mem_cons.1 hx with h1 | h1
              · exact hst h1
              · exact hs h1⟩

theorem mem_firstOccs {s : Suit} {u : List Suit} :
    s ∈ firstOccs u ↔ s ∈ u := by
  unfold firstOccs
  rw [mem_firstOccsAux]
  simp

theorem two_count_le_length {α : Type} [DecidableEq α] {a b : α} (hab : a ≠ b) :
    ∀ (l : List α), l.count a + l.count b ≤ l.length := by
  intro l
  induction l with
  | nil => simp
  | cons x rest ih =>
    by_cases hxa : x = a
    · subst hxa
      rw [List.count_cons_self, List.count_cons_of_ne (fun h => hab h.symm)]
      simpa using by omega
    · by_cases hxb : x = b
      · subst hxb
        rw [List.count_cons_of_ne (fun h => hxa h.symm), List.count_cons_self]
        simpa using by omega
      · rw [List.count_cons_of_ne (fun h => hxa h.symm),
            List.count_cons_of_ne (fun h => hxb h.symm)]
        simpa using by omega

theorem flushSuitOf_perm_eq {l l' : List Card} (h : l ~ l') (hlen : l.length ≤ 9) :
    flushSuitOf l = flushSuitOf l' := by
  match hfs : flushSuitOf l with
  | some fs =>
    have hcount : 5 ≤ (suitsOf l).count fs := flushSuit_count hfs
    have hcount' : 5 ≤ (suitsOf l').count fs := by
      rw [← suitsOf_count_perm h fs]; exact hcount
    have hmem' : fs ∈ suitsOf l' :=
      List.count_pos_iff.1 (by omega)
    have hsome' : (flushSuitOf l').isSome := by
      unfold flushSuitOf
      exact List.find?_isSome.2 ⟨fs, mem_firstOccs.2 hmem', by simpa using hcount'⟩
    rcases Option.isSome_iff_exists.1 hsome' with ⟨fs', hfs'⟩
    have hcnt2 : 5 ≤ (suitsOf l').count fs' := flushSuit_count hfs'
    have hcnt2l : 5 ≤ (suitsOf l).count fs' := by
      rw [suitsOf_count_perm h fs']; exact hcnt2
    have : fs = fs' := by
      by_contra hne
      have := two_count_le_length hne (suitsOf l)
      have hl : (suitsOf l).length ≤ 9 := by rw [suitsOf_length_eq]; exact hlen
      omega
    rw [hfs', this]
  | none =>
    unfold flushSuitOf at hfs
    symm
    unfold flushSuitOf
    rw [List.find?_eq_none] at hfs ⊢
    intro s hs
    have hmem : s ∈ suitsOf l' := mem_firstOccs.1 hs
    have hmeml : s ∈ suitsOf l := by
      have : 0 < (suitsOf l').count s := List.count_pos_iff.2 hmem
      have : 0 < (suitsOf l).count s := by rw [suitsOf_count_perm h s]; exact this
      exact List.count_pos_iff.1 this
    have := hfs s (mem_firstOccs.2 hmeml)
    simp only [decide_eq_true_eq] at this ⊢
    rw [← suitsOf_count_perm h s]
    exact this

theorem flushCardsOf_perm_eq {l l' : List Card} (h : l ~ l') (hlen : l.length ≤ 9) :
    flushCardsOf l = flushCardsOf l' := by
  have hfs := flushSuitOf_perm_eq h hlen
  match hcase : flushSuitOf l with
  | none =>
    unfold flushCardsOf
    rw [hcase, ← hfs, hcase]
  | some fs =>
    unfold flushCardsOf
    rw [hcase, ← hfs, hcase]
    have hperm :
        ((sortedCards l).filter (fun c => c.suit = fs)).map getCardValue ~
        ((sortedCards l').filter (fun c => c.suit = fs)).map getCardValue :=
      ((((sortedCards_perm l).filter _).trans (h.filter _)).trans
        ((sortedCards_perm l').filter _).symm).map getCardValue
    have hs1 : (((sortedCards l).filter (fun c => c.suit = fs)).map getCardValue).Sorted
        (fun x y : Nat => y ≤ x) :=
      List.Pairwise.map getCardValue (fun _ _ hb => hb)
        ((sortedCards_sorted l).sublist (List.filter_sublist _))
    have hs2 : (((sortedCards l').filter (fun c => c.suit = fs)).map getCardValue).Sorted
        (fun x y : Nat => y ≤ x) :=
      List.Pairwise.map getCardValue (fun _ _ hb => hb)
        ((sortedCards_sorted l').sublist (List.filter_sublist _))
    exact @List.eq_of_perm_of_sorted Nat (fun x y => y ≤ x)
      ⟨fun _ _ h1 h2 => Nat.le_antisymm h2 h1⟩ _ _ hperm hs1 hs2

/-- The evaluator cascade depends only on the multiset of input cards
(for inputs of at most 9 cards, where at most one suit can reach five). -/
theorem evalCards_perm_eq {l l' : List Card} (h : l ~ l') (hlen : l.length ≤ 9) :
    evalCards l = evalCards l' := by
  have hv : valuesOf l = valuesOf l' := valuesOf_perm_eq h
  have hd : distinctOf l = distinctOf l' := by unfold distinctOf; rw [hv]
  have hfs : flushSuitOf l = flushSuitOf l' := flushSuitOf_perm_eq h hlen
  have hfc : flushCardsOf l = flushCardsOf l' := flushCardsOf_perm_eq h hlen
  have hst : straightHighOf l = straightHighOf l' := by unfold straightHighOf; rw [hd]
  have ht : threeTwoOf l = threeTwoOf l' := by unfold threeTwoOf; rw [hv, hd]
  have hp : pairsOf l = pairsOf l' := by unfold pairsOf; rw [hv, hd]
  have he : l.isEmpty = l'.isEmpty := by
    rcases l with _ | ⟨x, xs⟩
    · rw [h.nil_eq]
    · have : l' ≠ [] := by
        intro hnil
        rw [hnil] at h
        exact absurd h.symm.nil_eq (by simp)
      simp [this]
  unfold evalCards
  rw [he, hv, hd, hfs, hfc, hst, ht, hp]

/-- C5: the evaluator is order-independent: permuting the hole cards and
the community cards (within the spec's 0–2 hole plus 0–5 community input
domain) never changes the returned score or description. -/
theorem claim_C5_order_independent (hole comm hole' comm' : List Card)
    (hh : hole ~ hole') (hc : comm ~ comm')
    (hhl : hole.length ≤ 2) (hcl : comm.length ≤ 5) :
    evaluateHand hole comm = evaluateHand hole' comm' := by
  unfold evaluateHand
  exact evalCards_perm_eq (hh.append hc)
    (by rw [List.length_append]; omega)

/-- Witness for C5: shuffling an ace-king flush input leaves the result
unchanged. -/
theorem claim_C5_order_independent_witness :
    evaluateHand [⟨.ace, .spades⟩, ⟨.king, .spades⟩]
      [⟨.nine, .spades⟩, ⟨.five, .spades⟩, ⟨.three, .spades⟩] =
    evaluateHand [⟨.king, .spades⟩, ⟨.ace, .spades⟩]
      [⟨.three, .spades⟩, ⟨.nine, .spades⟩, ⟨.five, .spades⟩] :=
  claim_C5_order_independent _ _ _ _ (by decide) (by decide) (by decide) (by decide)

/-! ## Short inputs (C8) -/

theorem distinctOf_length_le (l : List Card) :
    (distinctOf l).length ≤ l.length := by
  have h1 : (distinctOf l).length ≤ (valuesOf l).length :=
    (List.dedup_sublist _).length_le
  rw [valuesOf_length] at h1
  exact h1

theorem flushSuitOf_eq_none_of_short {l : List Card} (hlen : l.length ≤ 4) :
    flushSuitOf l = none := by
  unfold flushSuitOf
  rw [List.find?_eq_none]
  intro s _
  simp only [decide_eq_true_eq]
  intro habs
  have := List.count_le_length s (suitsOf l)
  rw [suitsOf_length_eq] at this
  omega

theorem straightScanAux_short :
    ∀ (rest : List Nat) (w3 w2 w1 a c sh : Nat), rest.length + c ≤ 3 →
      straightScanAux rest w3 w2 w1 a c sh = sh := by
  intro rest
  induction rest with
  | nil => intro _ _ _ _ _ _ _; rfl
  | cons b rest ih =>
    intro w3 w2 w1 a c sh hlen
    simp only [List.length_cons] at hlen
    simp only [straightScanAux]
    split
    · have hc : ¬ (4 ≤ c + 1) := by omega
      simp only [if_neg hc]
      exact ih _ _ _ _ _ _ (by omega)
    · exact ih _ _ _ _ _ _ (by omega)

theorem straightHighOf_eq_zero_of_short {l : List Card} (hlen : l.length ≤ 4) :
    straightHighOf l = 0 := by
  have hdl : (distinctOf l).length ≤ 4 := le_trans (distinctOf_length_le l) hlen
  have hscan : straightScan (distinctOf l) = 0 := by
    unfold straightScan
    split
    · rfl
    · next a rest heq =>
      have : rest.length + 0 ≤ 3 := by
        have := heq ▸ hdl
        simp only [List.length_cons] at this
        omega
      exact straightScanAux_short rest 0 0 0 a 0 0 this
  unfold straightHighOf
  rw [hscan]
  split
  · next hcond =>
    exfalso
    have hsub : ([14, 5, 4, 3, 2] : List Nat) ⊆ distinctOf l := by
      intro x hx
      
      rcases hcond with ⟨_, h14, h2, h3, h4, h5⟩
      fin_cases hx <;> assumption
    have hnd : ([14, 5, 4, 3, 2] : List Nat).Nodup := by decide
    have := (hnd.subperm hsub).length_le
    simp only [List.length_cons, List.length_nil] at this
    omega
  · rfl

theorem fhLoop_inv (cnt : Nat → Nat) :
    ∀ (l : List Nat) (three two : Nat), l.Nodup →
      (three ≠ 0 → cnt three = 3 ∧ three ∉ l) →
      (two ≠ 0 → 2 ≤ cnt two ∧ two ∉ l) →
      (three ≠ 0 → two ≠ 0 → three ≠ two) →
      ((fhLoop cnt l three two).1 ≠ 0 → cnt (fhLoop cnt l three two).1 = 3) ∧
      ((fhLoop cnt l three two).2 ≠ 0 → 2 ≤ cnt (fhLoop cnt l three two).2) ∧
      ((fhLoop cnt l three two).1 ≠ 0 → (fhLoop cnt l three two).2 ≠ 0 →
        (fhLoop cnt l three two).1 ≠ (fhLoop cnt l three two).2) := by
  intro l
  induction l with
  | nil =>
    intro three two _ h3 h2 hne
    exact ⟨fun h => (h3 h).1, fun h => (h2 h).1, hne⟩
  | cons v rest ih =>
    intro three two hnd h3 h2 hne
    have hvrest : v ∉ rest := (List.nodup_cons.1 hnd).1
    have hndr : rest.Nodup := (List.nodup_cons.1 hnd).2
    simp only [fhLoop]
    split
    · next hcond =>
      refine ih v two hndr ?_ ?_ ?_
      · intro _
        exact ⟨hcond.1, hvrest⟩
      · intro hw
        refine ⟨(h2 hw).1, ?_⟩
        intro habs
        exact (h2 hw).2 (List.mem_cons_of_mem _ habs)
      · intro _ hw
        intro habs
        exact (h2 hw).2 (by rw [← habs]; exact List.mem_cons_self _ _)
    split
    · next hcond2 =>
      refine ih three v hndr ?_ ?_ ?_
      · intro ht
        refine ⟨(h3 ht).1, ?_⟩
        intro habs
        exact (h3 ht).2 (List.mem_cons_of_mem _ habs)
      · intro _
        exact ⟨hcond2.1, hvrest⟩
      · intro ht _
        intro habs
        exact (h3 ht).2 (by rw [habs]; exact List.mem_cons_self _ _)
    · refine ih three two hndr ?_ ?_ hne
      · intro ht
        refine ⟨(h3 ht).1, ?_⟩
        intro habs
        exact (h3 ht).2 (List.mem_cons_of_mem _ habs)
      · intro hw
        refine ⟨(h2 hw).1, ?_⟩
        intro habs
        exact (h2 hw).2 (List.mem_cons_of_mem _ habs)

theorem threeTwo_not_both_of_short {l : List Card} (hlen : l.length ≤ 4) :
    ¬((threeTwoOf l).1 ≠ 0 ∧ (threeTwoOf l).2 ≠ 0) := by
  rintro ⟨h1, h2⟩
  unfold threeTwoOf at h1 h2
  have hinv := fhLoop_inv (fun v => (valuesOf l).count v) (distinctOf l) 0 0
    (List.nodup_dedup _) (fun h => absurd rfl h) (fun h => absurd rfl h)
    (fun h => absurd rfl h)
  have hc3 := hinv.1 h1
  have hc2 := hinv.2.1 h2
  have hne := hinv.2.2 h1 h2
  simp only [] at hc3 hc2
  have := two_count_le_length hne (valuesOf l)
  rw [valuesOf_length] at this
  omega

theorem fhLoop_zero_of_count_one (cnt : Nat → Nat) :
    ∀ (l : List Nat), (∀ v ∈ l, cnt v = 1) → fhLoop cnt l 0 0 = (0, 0) := by
  intro l
  induction l with
  | nil => intro _; rfl
  | cons v rest ih =>
    intro hall
    have hv : cnt v = 1 := hall v (List.mem_cons_self _ _)
    simp only [fhLoop, hv]
    norm_num
    exact ih (fun u hu => hall u (List.mem_cons_of_mem _ hu))

/-- A "Full House" verdict requires the loop to have found both a trips
rank and a pair rank. -/
theorem desc_fh_imp (l : List Card) :
    (evalCards l).description = "Full House" →
    (threeTwoOf l).1 ≠ 0 ∧ (threeTwoOf l).2 ≠ 0 := by
  intro hd
  unfold evalCards at hd
  split at hd
  all_goals try split at hd
  all_goals try split at hd
  all_goals try split at hd
  all_goals try split at hd
  all_goals try split at hd
  all_goals try split at hd
  all_goals simp_all

/-- A "Flush" verdict requires a suit with at least five members. -/
theorem desc_flush_imp (l : List Card) :
    (evalCards l).description = "Flush" → (flushSuitOf l).isSome = true := by
  intro hd
  unfold evalCards at hd
  split at hd
  all_goals try split at hd
  all_goals try split at hd
  all_goals try split at hd
  all_goals try split at hd
  all_goals try split at hd
  all_goals try split at hd
  all_goals simp_all

/-- A "Straight" verdict requires a nonzero straight-high value. -/
theorem desc_straight_imp (l : List Card) :
    (evalCards l).description = "Straight" → straightHighOf l ≠ 0 := by
  intro hd
  unfold evalCards at hd
  split at hd
  all_goals try split at hd
  all_goals try split at hd
  all_goals try split at hd
  all_goals try split at hd
  all_goals try split at hd
  all_goals try split at hd
  all_goals simp_all

/-- C8 (amended): with fewer than five total cards the evaluator can never
report a Straight, Flush or Full House (they need five cards), and when
additionally no rank repeats (and the input is nonempty) the result is
High Card; a repeated rank however yields the corresponding multiplicity
category — in particular a pocket pair before the flop is categorised
"Pair", not "High Card". -/
theorem claim_C8_short_input (h c : List Card) (hlen : (h ++ c).length < 5) :
    ((evaluateHand h c).description ≠ "Straight" ∧
     (evaluateHand h c).description ≠ "Flush" ∧
     (evaluateHand h c).description ≠ "Full House") ∧
    ((valuesOf (h ++ c)).Nodup → h ++ c ≠ [] →
      (evaluateHand h c).description = "High Card") := by
  have hl4 : (h ++ c).length ≤ 4 := by omega
  have hfs := flushSuitOf_eq_none_of_short hl4
  have hst := straightHighOf_eq_zero_of_short hl4
  have h32 := threeTwo_not_both_of_short hl4
  constructor
  · refine ⟨?_, ?_, ?_⟩
    · intro hd
      exact (desc_straight_imp _ hd) hst
    · intro hd
      have := desc_flush_imp _ hd
      rw [hfs] at this
      simp at this
    · intro hd
      exact h32 (desc_fh_imp _ hd)
  · intro hnd hne
    have hcnt : ∀ v ∈ distinctOf (h ++ c), (valuesOf (h ++ c)).count v = 1 :=
      fun v hv => List.count_eq_one_of_mem hnd (mem_distinctOf hv)
    have hfind : (distinctOf (h ++ c)).find?
        (fun v => (valuesOf (h ++ c)).count v = 4) = none := by
      rw [List.find?_eq_none]
      intro v hv
      simp [hcnt v hv]
    have hfh : threeTwoOf (h ++ c) = (0, 0) := by
      unfold threeTwoOf
      exact fhLoop_zero_of_count_one _ _ hcnt
    have hpairs : pairsOf (h ++ c) = [] := by
      unfold pairsOf
      rw [List.filter_eq_nil_iff]
      intro v hv
      simp [hcnt v hv]
    have hemp : (h ++ c).isEmpty = false := by
      cases hb : (h ++ c).isEmpty with
      | false => rfl
      | true => exact absurd (List.isEmpty_iff.1 hb) hne
    unfold evaluateHand evalCards
    rw [hemp, hfind, hfh, hpairs]
    simp [hfs, hst]

/-- Witness for C8: two unpaired short inputs — ace-king with no board is
High Card, and no ≤4-card input is a straight, flush, or full house. -/
theorem claim_C8_short_input_witness :
    ((evaluateHand [⟨.ace, .spades⟩, ⟨.king, .hearts⟩] []).description ≠ "Straight" ∧
     (evaluateHand [⟨.ace, .spades⟩, ⟨.king, .hearts⟩] []).description ≠ "Flush" ∧
     (evaluateHand [⟨.ace, .spades⟩, ⟨.king, .hearts⟩] []).description ≠ "Full House") ∧
    (evaluateHand [⟨.ace, .spades⟩, ⟨.king, .hearts⟩] []).description = "High Card" :=
  ⟨(claim_C8_short_input [⟨.ace, .spades⟩, ⟨.king, .hearts⟩] [] (by decide)).1,
   (claim_C8_short_input [⟨.ace, .spades⟩, ⟨.king, .hearts⟩] [] (by decide)).2
     (by decide) (by decide)⟩

/-- Counterexample to C8 as stated: a pocket pair with no community cards
— two total cards, fewer than five — is categorised "Pair" (score 1014),
not "High Card": the pre-flop result is not High-Card-only. -/
theorem claim_C8_counterexample :
    evaluateHand [⟨.ace, .spades⟩, ⟨.ace, .hearts⟩] [] = ⟨1014, "Pair"⟩ ∧
    ([⟨.ace, .spades⟩, ⟨.ace, .hearts⟩] : List Card).length + ([] : List Card).length < 5 := by
  exact ⟨by decide, by decide⟩

/-! ## Starting-hand grading (C9) -/

/-- `Rat.ceil` is the mathematical ceiling: the implementation-level
`Math.ceil` model used in `gradeStartingHand` rounds up to the nearest
integer. -/
theorem ratCeil_eq_intCeil (q : ℚ) : Rat.ceil q = ⌈q⌉ := by
  rw [Rat.ceil]
  split
  · next h =>
    have hq : ((q.num : ℚ)) = q := by
      conv_rhs => rw [← Rat.num_div_den q]
      rw [h]
      simp
    rw [← hq, Int.ceil_intCast, Rat.num_intCast]
  · next h =>
    rw [← Rat.floor_def]
    have h1 : (⌊q⌋ : ℚ) ≤ q := Int.floor_le q
    have h2 : (⌊q⌋ : ℚ) ≠ q := by
      intro habs
      have : q.den = 1 := by rw [← habs]; exact Rat.den_intCast _
      exact h this
    symm
    rw [Int.ceil_eq_iff]
    constructor
    · push_cast
      rcases lt_or_eq_of_le h1 with hlt | heq
      · linarith
      · exact absurd heq h2
    · push_cast
      have := Int.lt_floor_add_one q
      linarith

/-- C9: `gradeStartingHand` on a 2-card hand orders the cards, computes
the Chen-style heuristic, rounds it up to the nearest integer
(`Rat.ceil = ⌈·⌉`), and maps the result through the fixed thresholds
≥20 S, ≥15 A, ≥10 B, ≥7 C, ≥5 D, else F with their fixed advisory
strings; pocket aces grade "S" and seven-deuce offsuit grades "F". -/
theorem claim_C9_grading :
    (∀ a b : Card, gradeStartingHand [a, b] =
      gradeOf (Rat.ceil (chenRaw
        (if getCardValue b ≤ getCardValue a then a else b)
        (if getCardValue b ≤ getCardValue a then b else a)))) ∧
    (∀ q : ℚ, Rat.ceil q = ⌈q⌉) ∧
    (∀ s : Int,
      (20 ≤ s → gradeOf s = ⟨s, "S", "Monster. Raise big."⟩) ∧
      (15 ≤ s → s < 20 → gradeOf s = ⟨s, "A", "Premium. 3-bet territory."⟩) ∧
      (10 ≤ s → s < 15 → gradeOf s = ⟨s, "B", "Strong. Playable from any position."⟩) ∧
      (7 ≤ s → s < 10 → gradeOf s = ⟨s, "C", "Marginal. Careful out of position."⟩) ∧
      (5 ≤ s → s < 7 → gradeOf s = ⟨s, "D", "Speculative. Fold unless on Button."⟩) ∧
      (s < 5 → gradeOf s = ⟨s, "F", "Garbage. Do not play."⟩)) ∧
    gradeStartingHand [⟨.ace, .spades⟩, ⟨.ace, .hearts⟩] =
      ⟨20, "S", "Monster. Raise big."⟩ ∧
    gradeStartingHand [⟨.seven, .clubs⟩, ⟨.two, .hearts⟩] =
      ⟨-1, "F", "Garbage. Do not play."⟩ := by
  refine ⟨fun a b => rfl, ratCeil_eq_intCeil, ?_, ?_, ?_⟩
  · intro s
    refine ⟨?_, ?_, ?_, ?_, ?_, ?_⟩ <;> intros <;> unfold gradeOf <;>
      split_ifs <;> first | rfl | omega
  · norm_num +decide [gradeStartingHand, chenRaw, gradeOf, getCardValue,
      rankValue, Rat.ceil]
  · norm_num +decide [gradeStartingHand, chenRaw, gradeOf, getCardValue,
      rankValue, Rat.ceil]

/-- Witness for C9: the threshold map evaluated at the boundary score 20
(grade "S"). -/
theorem claim_C9_grading_witness :
    gradeOf 20 = ⟨20, "S", "Monster. Raise big."⟩ :=
  (claim_C9_grading.2.2.1 20).1 (by decide)

/-! ## Action processing (C7, C2) -/

/-- C7: `processPlayerAction` commits exactly `min amount chips`: for a
seat present in the state and a requested amount ≥ 0, the seat's chips
drop by the committed amount and never go negative, the seat's current
bet and the pot rise by exactly the committed amount, the seat is marked
all-in when its chips reach zero, and no error is surfaced — an
over-sized request is silently capped at the stack. -/
theorem claim_C7_commit_capped (st : GameState) (i : Nat) (p : Player)
    (amount : Int) (verb : String) (dt : Option Int)
    (hp : st.players[i]? = some p)
    (hidx : st.players.findIdx? (fun q => q.id = p.id) = some i)
    (hamt : 0 ≤ amount) (hchips : 0 ≤ p.chips) :
    ((processPlayerAction st p amount verb dt).players[i]?).map Player.chips =
      some (p.chips - min amount p.chips) ∧
    0 ≤ p.chips - min amount p.chips ∧
    ((processPlayerAction st p amount verb dt).players[i]?).map Player.currentBet =
      some (p.currentBet + min amount p.chips) ∧
    (processPlayerAction st p amount verb dt).pot = st.pot + min amount p.chips ∧
    (p.chips - min amount p.chips = 0 →
      ((processPlayerAction st p amount verb dt).players[i]?).map Player.isAllIn =
        some true) := by
  have hlt : i < st.players.length := (List.getElem?_eq_some.1 hp).1
  have hgetD : st.players.getD i default = p := by
    rw [List.getD_eq_getElem?_getD, hp]; rfl
  have hset : ∀ q : Player, (st.players.set i q)[i]? = some q := by
    intro q
    simp [List.getElem?_set_self, hlt]
  simp only [processPlayerAction, hidx, hgetD]
  split
  · next hz =>
    refine ⟨?_, by omega, ?_, trivial, fun _ => ?_⟩ <;> rw [hset] <;> rfl
  · next hz =>
    refine ⟨?_, by omega, ?_, trivial, fun hz2 => absurd hz2 hz⟩ <;> rw [hset] <;> rfl

/-- Witness for C7: a seat with 100 chips asked to commit 500 commits
exactly 100, ends on 0 chips, and is marked all-in. -/
theorem claim_C7_commit_capped_witness :
    (((processPlayerAction
        { phase := .preFlop, pot := 30, communityCards := [], deck := [],
          players := [{ id := "a", name := "a", chips := 100, hand := [],
                        isActive := true, isAllIn := false, currentBet := 0,
                        actionMessage := none }],
          currentPlayerIndex := 0, dealerIndex := 0, minBet := 20,
          currentBet := 0, lastRaiserIndex := none, roundLog := [],
          deckColor := "blue", winners := [], winningHandDesc := "",
          lastPotSize := 0, handHistory := [], handCount := 1 }
        { id := "a", name := "a", chips := 100, hand := [], isActive := true,
          isAllIn := false, currentBet := 0, actionMessage := none }
        500 "Raises" none).players[0]?).map Player.chips = some 0) ∧
    ((processPlayerAction
        { phase := .preFlop, pot := 30, communityCards := [], deck := [],
          players := [{ id := "a", name := "a", chips := 100, hand := [],
                        isActive := true, isAllIn := false, currentBet := 0,
                        actionMessage := none }],
          currentPlayerIndex := 0, dealerIndex := 0, minBet := 20,
          currentBet := 0, lastRaiserIndex := none, roundLog := [],
          deckColor := "blue", winners := [], winningHandDesc := "",
          lastPotSize := 0, handHistory := [], handCount := 1 }
        { id := "a", name := "a", chips := 100, hand := [], isActive := true,
          isAllIn := false, currentBet := 0, actionMessage := none }
        500 "Raises" none).pot = 130) := by
  have h := claim_C7_commit_capped
    { phase := .preFlop, pot := 30, communityCards := [], deck := [],
      players := [{ id := "a", name := "a", chips := 100, hand := [],
                    isActive := true, isAllIn := false, currentBet := 0,
                    actionMessage := none }],
      currentPlayerIndex := 0, dealerIndex := 0, minBet := 20,
      currentBet := 0, lastRaiserIndex := none, roundLog := [],
      deckColor := "blue", winners := [], winningHandDesc := "",
      lastPotSize := 0, handHistory := [], handCount := 1 }
    0
    { id := "a", name := "a", chips := 100, hand := [], isActive := true,
      isAllIn := false, currentBet := 0, actionMessage := none }
    500 "Raises" none (by decide) (by decide) (by decide) (by decide)
  exact ⟨by rw [h.1]; decide, by rw [h.2.2.2.1]; decide⟩

/-- Total chips sitting in front of the seats. -/
def chipSum (ps : List Player) : Int := (ps.map Player.chips).sum

theorem map_sum_set (f : Player → Int) :
    ∀ (l : List Player) (i : Nat) (a : Player), i < l.length →
      ((l.set i a).map f).sum = (l.map f).sum - f (l.getD i default) + f a := by
  intro l
  induction l with
  | nil => intro i a h; simp at h
  | cons hd tl ih =>
    intro i a h
    cases i with
    | zero => simp [List.set]; ring
    | succ j =>
      simp only [List.set, List.map_cons, List.sum_cons, List.getD_cons_succ]
      rw [ih j a (by simpa using h)]
      ring

theorem showdownFold_sublist (comm : List Card) :
    ∀ (l : List Player) (best : Int) (ws : List Player) (desc : String),
      (showdownFold comm l best ws desc).2.1 <+ ws ++ l := by
  intro l
  induction l with
  | nil => intro best ws desc; simp [showdownFold]
  | cons p rest ih =>
    intro best ws desc
    simp only [showdownFold]
    split
    · exact (ih _ _ _).trans (List.sublist_append_right ws (p :: rest))
    · split
      · have h2 := ih best (ws ++ [p]) desc
        rw [List.append_assoc] at h2
        exact h2
      · exact (ih _ _ _).trans ((List.sublist_cons_self p rest).append_left ws)

theorem showdownFold_ne_nil (comm : List Card) :
    ∀ (l : List Player) (best : Int) (ws : List Player) (desc : String),
      ws ≠ [] → (showdownFold comm l best ws desc).2.1 ≠ [] := by
  intro l
  induction l with
  | nil => intro best ws desc h; simpa [showdownFold] using h
  | cons p rest ih =>
    intro best ws desc h
    simp only [showdownFold]
    split
    · exact ih _ _ _ (by simp)
    · split
      · exact ih _ _ _ (by simp)
      · exact ih _ _ _ h

theorem showdownWinners_ne_nil {st : GameState}
    (hact : st.players.filter (fun p => p.isActive) ≠ []) :
    showdownWinners st ≠ [] := by
  unfold showdownWinners
  rcases hfe : st.players.filter (fun p => p.isActive) with _ | ⟨p, rest⟩
  · exact absurd hfe hact
  · rw [hfe]
    simp only [showdownFold]
    rw [if_pos (by omega)]
    exact showdownFold_ne_nil _ _ _ _ _ (by simp)

theorem countP_winners :
    ∀ (w l : List Player), w <+ l → (l.map Player.id).Nodup →
      l.countP (fun p => w.any (fun q => q.id = p.id)) = w.length := by
  intro w l hsub
  induction hsub with
  | slnil => intro _; rfl
  | @cons l₁ l₂ a hs ih =>
    intro hnd
    have hnd2 : (l₂.map Player.id).Nodup := by
      simpa using (List.nodup_cons.1 (by simpa using hnd)).2
    have hanotin : a.id ∉ l₂.map Player.id :=
      (List.nodup_cons.1 (by simpa using hnd)).1
    rw [List.countP_cons]
    have hfalse : (l₁.any (fun q => q.id = a.id)) = false := by
      rw [List.any_eq_false]
      intro q hq
      simp only [decide_eq_true_eq]
      intro habs
      exact hanotin (habs ▸ List.mem_map_of_mem Player.id (hs.subset hq))
    rw [hfalse]
    simpa using ih hnd2
  | @cons₂ l₁ l₂ a hs ih =>
    intro hnd
    have hnd2 : (l₂.map Player.id).Nodup := by
      simpa using (List.nodup_cons.1 (by simpa using hnd)).2
    have hanotin : a.id ∉ l₂.map Player.id :=
      (List.nodup_cons.1 (by simpa using hnd)).1
    rw [List.countP_cons]
    have htrue : ((a :: l₁).any (fun q => q.id = a.id)) = true := by
      simp
    rw [htrue]
    have hsame : l₂.countP (fun p => (a :: l₁).any (fun q => q.id = p.id)) =
        l₂.countP (fun p => l₁.any (fun q => q.id = p.id)) := by
      rw [List.countP_eq_length_filter, List.countP_eq_length_filter]
      congr 1
      apply List.filter_congr
      intro p hp
      have hne : a.id ≠ p.id :=
        fun habs => hanotin (habs ▸ List.mem_map_of_mem Player.id hp)
      simp [hne]
    rw [hsame, ih hnd2]
    simp

theorem chipSum_credit (f : Player → Bool) (amt : Int) :
    ∀ (ps : List Player),
      chipSum (ps.map (fun p => if f p then { p with chips := p.chips + amt } else p)) =
      chipSum ps + amt * (ps.countP f : Int) := by
  intro ps
  induction ps with
  | nil => simp [chipSum]
  | cons hd tl ih =>
    simp only [List.map_cons, chipSum, List.sum_cons, List.countP_cons] at ih ⊢
    by_cases hf : f hd = true
    · simp only [hf, if_true]
      push_cast
      rw [mul_add, mul_one]
      linarith [ih]
    · simp only [if_neg hf]
      push_cast
      linarith [ih]

/-- The state update performed by `processPlayerAction` on a found seat:
seat `i` is replaced by a record whose chips dropped by the committed
amount, and the pot rose by the committed amount. -/
theorem processPlayerAction_fields (st : GameState) (p : Player)
    (amount : Int) (verb : String) (dt : Option Int) (i : Nat)
    (hidx : st.players.findIdx? (fun q => q.id = p.id) = some i) :
    ∃ q : Player,
      (processPlayerAction st p amount verb dt).players = st.players.set i q ∧
      q.chips = (st.players.getD i default).chips - min amount p.chips ∧
      (processPlayerAction st p amount verb dt).pot =
        st.pot + min amount p.chips := by
  unfold processPlayerAction
  rw [hidx]
  refine ⟨_, rfl, ?_, rfl⟩
  split <;> rfl

/-- C2 (amended): chips are conserved by every action — the sum of seat
chips plus the pot is unchanged by `processPlayerAction` — and at
showdown the pot is zeroed while each winner is credited
`⌊pot / winners⌋`, so the amount credited is `winners * ⌊pot / winners⌋`:
exactly the pre-payout pot when the winner count divides the pot, and
`pot mod winners` chips short otherwise (the floor-division remainder is
discarded). -/
theorem claim_C2_conservation :
    (∀ (st : GameState) (p : Player) (amount : Int) (verb : String)
        (dt : Option Int),
      chipSum (processPlayerAction st p amount verb dt).players +
        (processPlayerAction st p amount verb dt).pot =
      chipSum st.players + st.pot) ∧
    (∀ st : GameState,
      st.players.filter (fun p => p.isActive) ≠ [] →
      (st.players.map Player.id).Nodup →
      (handleShowdown st).pot = 0 ∧
      chipSum (handleShowdown st).players =
        chipSum st.players +
          ((showdownWinners st).length : Int) *
            (st.pot / ((showdownWinners st).length : Int)) ∧
      (st.pot % ((showdownWinners st).length : Int) = 0 →
        chipSum (handleShowdown st).players = chipSum st.players + st.pot)) := by
  constructor
  · intro st p amount verb dt
    cases hidx : st.players.findIdx? (fun q => q.id = p.id) with
    | none => unfold processPlayerAction; rw [hidx]
    | some i =>
      have hlt : i < st.players.length :=
        (List.findIdx?_eq_some_iff_findIdx_eq.1 hidx).1
      obtain ⟨q, hpl, hch, hpot⟩ :=
        processPlayerAction_fields st p amount verb dt i hidx
      rw [hpl, hpot]
      unfold chipSum
      rw [map_sum_set Player.chips st.players i q hlt, hch]
      ring
  · intro st hact hnd
    have hwne := showdownWinners_ne_nil hact
    have hsub : showdownWinners st <+ st.players := by
      have h1 : showdownWinners st <+
          [] ++ st.players.filter (fun p => p.isActive) :=
        showdownFold_sublist _ _ _ _ _
      simpa using h1.trans (List.filter_sublist _)
    have hemp : (st.players.filter (fun p => p.isActive)).isEmpty = false := by
      cases hb : (st.players.filter (fun p => p.isActive)).isEmpty with
      | false => rfl
      | true => exact absurd (List.isEmpty_iff.1 hb) hact
    have hcount := countP_winners (showdownWinners st) st.players hsub hnd
    unfold handleShowdown
    rw [hemp]
    simp only [Bool.false_eq_true, if_false]
    refine ⟨trivial, ?_, ?_⟩
    · rw [show (showdownWinners st) =
          (showdownFold st.communityCards
            (st.players.filter (fun p => p.isActive)) (-1) [] "").2.1 from rfl] at hcount ⊢
      rw [chipSum_credit _ _ st.players, hcount]
      ring
    · intro hmod
      rw [chipSum_credit _ _ st.players, hcount]
      have hdiv := Int.ediv_add_emod st.pot ((showdownWinners st).length : Int)
      rw [Int.mul_comm] at hdiv
      omega

/-- A river state with three active seats that tie (the board itself is an
ace-high spade flush shared by everyone) and a pot of 40 chips. -/
def c2TieState : GameState :=
  { phase := .river, pot := 40,
    communityCards := [⟨.ace, .spades⟩, ⟨.king, .spades⟩, ⟨.queen, .spades⟩,
                       ⟨.jack, .spades⟩, ⟨.ten, .spades⟩],
    deck := [],
    players :=
      [{ id := "a", name := "a", chips := 100,
         hand := [⟨.two, .hearts⟩, ⟨.three, .hearts⟩], isActive := true,
         isAllIn := false, currentBet := 0, actionMessage := none },
       { id := "b", name := "b", chips := 100,
         hand := [⟨.four, .diamonds⟩, ⟨.five, .diamonds⟩], isActive := true,
         isAllIn := false, currentBet := 0, actionMessage := none },
       { id := "c", name := "c", chips := 100,
         hand := [⟨.six, .clubs⟩, ⟨.seven, .clubs⟩], isActive := true,
         isAllIn := false, currentBet := 0, actionMessage := none }],
    currentPlayerIndex := 0, dealerIndex := 0, minBet := 20, currentBet := 0,
    lastRaiserIndex := none, roundLog := [], deckColor := "blue",
    winners := [], winningHandDesc := "", lastPotSize := 0, handHistory := [],
    handCount := 1 }

/-- Witness for C2: conservation applied to a concrete action, and the
showdown payout equation applied to the concrete three-way tie. -/
theorem claim_C2_conservation_witness :
    (chipSum (processPlayerAction c2TieState
        { id := "a", name := "a", chips := 100,
          hand := [⟨.two, .hearts⟩, ⟨.three, .hearts⟩], isActive := true,
          isAllIn := false, currentBet := 0, actionMessage := none }
        30 "Bets" none).players +
      (processPlayerAction c2TieState
        { id := "a", name := "a", chips := 100,
          hand := [⟨.two, .hearts⟩, ⟨.three, .hearts⟩], isActive := true,
          isAllIn := false, currentBet := 0, actionMessage := none }
        30 "Bets" none).pot =
      chipSum c2TieState.players + c2TieState.pot) ∧
    (handleShowdown c2TieState).pot = 0 ∧
    chipSum (handleShowdown c2TieState).players =
      chipSum c2TieState.players +
        ((showdownWinners c2TieState).length : Int) *
          (c2TieState.pot / ((showdownWinners c2TieState).length : Int)) :=
  ⟨claim_C2_conservation.1 c2TieState _ 30 "Bets" none,
   (claim_C2_conservation.2 c2TieState (by decide) (by decide)).1,
   (claim_C2_conservation.2 c2TieState (by decide) (by decide)).2.1⟩

/-- Counterexample to C2 as stated: in the concrete three-way tie on a
40-chip pot each winner is credited `⌊40/3⌋ = 13`, so only 39 chips reach
the winners while the pot is zeroed — the credited amounts do NOT sum to
the pre-payout pot for every winner count (one chip vanishes). -/
theorem claim_C2_counterexample :
    c2TieState.pot = 40 ∧
    (showdownWinners c2TieState).length = 3 ∧
    chipSum c2TieState.players = 300 ∧
    (handleShowdown c2TieState).pot = 0 ∧
    chipSum (handleShowdown c2TieState).players = 339 := by
  refine ⟨rfl, by decide, by decide, by decide, by decide⟩

/-! ## Blind posting (C3) -/

theorem succ_mod_ne {n d : Nat} (h2 : 2 ≤ n) (hd : d < n) : (d + 1) % n ≠ d := by
  rcases Nat.lt_or_ge (d + 1) n with h | h
  · rw [Nat.mod_eq_of_lt h]
    omega
  · have he : d + 1 = n := by omega
    rw [he, Nat.mod_self]
    omega

theorem postBlind_length (ps : List Player) (idx : Nat) (blind : Int) :
    (postBlind ps idx blind).1.length = ps.length := by
  unfold postBlind
  simp

theorem postBlind_amt (ps : List Player) (idx : Nat) (blind : Int) :
    (postBlind ps idx blind).2 = min blind (ps.getD idx default).chips := rfl

theorem postBlind_getD_self {ps : List Player} {idx : Nat} (blind : Int)
    (hlt : idx < ps.length) :
    ((postBlind ps idx blind).1.getD idx default).currentBet =
      min blind (ps.getD idx default).chips := by
  unfold postBlind
  simp only []
  rw [List.getD_eq_getElem (ps.set idx _) default (by simpa using hlt),
      List.getElem_set_self _, List.getD_eq_getElem ps default hlt]
  split <;> rfl

theorem postBlind_getD_ne {ps : List Player} {idx k : Nat} (blind : Int)
    (hne : k ≠ idx) :
    (postBlind ps idx blind).1.getD k default = ps.getD k default := by
  unfold postBlind
  simp only []
  rw [List.getD_eq_getElem?_getD, List.getElem?_set_ne (fun h => hne h.symm)]
  exact (List.getD_eq_getElem?_getD ps k default).symm

theorem dealHoleCards_currentBet :
    ∀ (ps : List Player) (dk : List Card),
      ((dealHoleCards ps dk).1).map Player.currentBet =
        ps.map Player.currentBet := by
  intro ps
  induction ps with
  | nil => intro dk; rfl
  | cons p rest ih =>
    intro dk
    unfold dealHoleCards
    split
    · simp only [List.map_cons]
      rw [ih]
    · simp only [List.map_cons]
      rw [ih]

theorem map_getD_currentBet {l l' : List Player}
    (hmap : l.map Player.currentBet = l'.map Player.currentBet) (k : Nat) :
    (l.getD k default).currentBet = (l'.getD k default).currentBet := by
  have h1 : (l.map Player.currentBet).getD k 0 = (l'.map Player.currentBet).getD k 0 := by
    rw [hmap]
  rw [List.getD_eq_getElem?_getD, List.getD_eq_getElem?_getD,
      List.getElem?_map, List.getElem?_map] at h1
  rw [List.getD_eq_getElem?_getD, List.getD_eq_getElem?_getD]
  cases hx : l[k]? with
  | none =>
    rw [hx] at h1
    cases hy : l'[k]? with
    | none => rfl
    | some q => rw [hy] at h1; simpa using h1
  | some q =>
    rw [hx] at h1
    cases hy : l'[k]? with
    | none => rw [hy] at h1; simpa using h1
    | some q2 =>
      rw [hy] at h1
      simpa using h1

theorem resetPlayer_getD {ps : List Player} {k : Nat} (hk : k < ps.length) :
    (ps.map resetPlayer).getD k default = resetPlayer (ps.getD k default) := by
  rw [List.getD_eq_getElem?_getD, List.getD_eq_getElem?_getD, List.getElem?_map]
  rw [List.getElem?_eq_getElem hk]
  rfl

theorem reset_filter_funded (ps : List Player) :
    ((ps.map resetPlayer).filter (fun p => 0 < p.chips)).length =
      (ps.filter (fun p => 0 < p.chips)).length := by
  induction ps with
  | nil => rfl
  | cons p rest ih =>
    simp only [List.map_cons, List.filter_cons]
    have hc : (decide (0 < (resetPlayer p).chips)) = (decide (0 < p.chips)) := rfl
    rw [hc]
    split
    · simp only [List.length_cons, ih]
    · exact ih

theorem reset_preserves_indices (ps : List Player) (dIdx : Nat) :
    nextDealerOf (ps.map resetPlayer) dIdx = nextDealerOf ps dIdx ∧
    sbIndexOf (ps.map resetPlayer) dIdx = sbIndexOf ps dIdx ∧
    bbIndexOf (ps.map resetPlayer) dIdx = bbIndexOf ps dIdx := by
  have hlen : (ps.map resetPlayer).length = ps.length := List.length_map _ _
  have hfun : headsUpOf (ps.map resetPlayer) ↔ headsUpOf ps := by
    unfold headsUpOf
    rw [reset_filter_funded]
  have hnd : nextDealerOf (ps.map resetPlayer) dIdx = nextDealerOf ps dIdx := by
    unfold nextDealerOf
    rw [hlen]
  refine ⟨hnd, ?_, ?_⟩
  · unfold sbIndexOf
    by_cases hh : headsUpOf ps
    · rw [if_pos (hfun.2 hh), if_pos hh, hnd]
    · rw [if_neg (fun hx => hh (hfun.1 hx)), if_neg hh, hnd, hlen]
  · unfold bbIndexOf
    by_cases hh : headsUpOf ps
    · rw [if_pos (hfun.2 hh), if_pos hh, hnd, hlen]
    · rw [if_neg (fun hx => hh (hfun.1 hx)), if_neg hh, hnd, hlen]

theorem mod_add_one_ne {n : Nat} (h2 : 2 ≤ n) (x : Nat) :
    (x + 1) % n ≠ x % n := by
  have he : x % n < n := Nat.mod_lt _ (by omega)
  have h1 : (x + 1) % n = (x % n + 1) % n := by
    conv_lhs => rw [Nat.add_mod]
    rw [Nat.mod_eq_of_lt (show 1 < n by omega)]
  rw [h1]
  exact succ_mod_ne h2 he

/-- C3 (amended): for every player list with at least two seats and every
dealer index, the seats that post the blinds are exactly the indices the
engine computes — heads-up (exactly two funded seats) the newly advanced
dealer seat posts the small blind and seat `dealer + 1` (mod seat count)
posts the big blind, otherwise seats `dealer + 1` and `dealer + 2` do —
each post capped at that seat's stack, and every other seat posts
nothing.  (Heads-up with a broke seat sitting between the two funded
seats, `dealer + 1` is NOT "the other seat with chips": see the
counterexample.) -/
theorem claim_C3_blind_seats (deck : List Card) (ps : List Player)
    (dIdx hc : Nat) (hist : List HandHistoryEntry) (h2 : 2 ≤ ps.length) :
    ((setupNewHand deck ps dIdx hc hist).players.getD (sbIndexOf ps dIdx)
        default).currentBet =
      min SMALL_BLIND (ps.getD (sbIndexOf ps dIdx) default).chips ∧
    ((setupNewHand deck ps dIdx hc hist).players.getD (bbIndexOf ps dIdx)
        default).currentBet =
      min BIG_BLIND (ps.getD (bbIndexOf ps dIdx) default).chips ∧
    (∀ k, k < ps.length → k ≠ sbIndexOf ps dIdx → k ≠ bbIndexOf ps dIdx →
      ((setupNewHand deck ps dIdx hc hist).players.getD k default).currentBet = 0) ∧
    (setupNewHand deck ps dIdx hc hist).dealerIndex = (dIdx + 1) % ps.length ∧
    (setupNewHand deck ps dIdx hc hist).pot =
      min SMALL_BLIND (ps.getD (sbIndexOf ps dIdx) default).chips +
      min BIG_BLIND (ps.getD (bbIndexOf ps dIdx) default).chips := by
  obtain ⟨hnd, hsb, hbb⟩ := reset_preserves_indices ps dIdx
  have hlen : (ps.map resetPlayer).length = ps.length := List.length_map _ _
  have hnpos : 0 < ps.length := by omega
  have hdlt : (dIdx + 1) % ps.length < ps.length := Nat.mod_lt _ hnpos
  have hsblt : sbIndexOf ps dIdx < ps.length := by
    unfold sbIndexOf nextDealerOf
    split
    · exact hdlt
    · exact Nat.mod_lt _ hnpos
  have hbblt : bbIndexOf ps dIdx < ps.length := by
    unfold bbIndexOf
    split <;> exact Nat.mod_lt _ hnpos
  have hsbbb : sbIndexOf ps dIdx ≠ bbIndexOf ps dIdx := by
    unfold sbIndexOf bbIndexOf nextDealerOf
    split
    · intro hx
      exact mod_add_one_ne h2 ((dIdx + 1) % ps.length)
        (hx.symm.trans (Nat.mod_eq_of_lt hdlt).symm)
    · intro hx
      exact mod_add_one_ne h2 ((dIdx + 1) % ps.length + 1) (hx.symm)
  have hplayers : (setupNewHand deck ps dIdx hc hist).players =
      (dealHoleCards (postBlind (postBlind (ps.map resetPlayer)
        (sbIndexOf (ps.map resetPlayer) dIdx) SMALL_BLIND).1
        (bbIndexOf (ps.map resetPlayer) dIdx) BIG_BLIND).1 deck).1 := rfl
  have hpot : (setupNewHand deck ps dIdx hc hist).pot =
      (postBlind (ps.map resetPlayer)
        (sbIndexOf (ps.map resetPlayer) dIdx) SMALL_BLIND).2 +
      (postBlind (postBlind (ps.map resetPlayer)
        (sbIndexOf (ps.map resetPlayer) dIdx) SMALL_BLIND).1
        (bbIndexOf (ps.map resetPlayer) dIdx) BIG_BLIND).2 := rfl
  have hdealer : (setupNewHand deck ps dIdx hc hist).dealerIndex =
      nextDealerOf (ps.map resetPlayer) dIdx := rfl
  rw [hplayers, hsb, hbb] at *
  have hdeal := dealHoleCards_currentBet
    (postBlind (postBlind (ps.map resetPlayer) (sbIndexOf ps dIdx) SMALL_BLIND).1
      (bbIndexOf ps dIdx) BIG_BLIND).1 deck
  have hX1len : (postBlind (ps.map resetPlayer) (sbIndexOf ps dIdx)
      SMALL_BLIND).1.length = ps.length := by
    rw [postBlind_length, hlen]
  refine ⟨?_, ?_, ?_, ?_, ?_⟩
  · rw [map_getD_currentBet hdeal _, postBlind_getD_ne BIG_BLIND hsbbb,
        postBlind_getD_self SMALL_BLIND (by rw [hlen]; exact hsblt),
        resetPlayer_getD hsblt]
    rfl
  · rw [map_getD_currentBet hdeal _,
        postBlind_getD_self BIG_BLIND (by rw [hX1len]; exact hbblt),
        postBlind_getD_ne SMALL_BLIND (fun hx => hsbbb hx.symm),
        resetPlayer_getD hbblt]
    rfl
  · intro k hk hksb hkbb
    rw [map_getD_currentBet hdeal _, postBlind_getD_ne BIG_BLIND hkbb,
        postBlind_getD_ne SMALL_BLIND hksb, resetPlayer_getD hk]
    rfl
  · rw [hdealer, hnd]
    unfold nextDealerOf
    rfl
  · rw [hpot, hsb, hbb, postBlind_amt, postBlind_amt,
        postBlind_getD_ne SMALL_BLIND (fun hx => hsbbb hx.symm),
        resetPlayer_getD hsblt, resetPlayer_getD hbblt]
    rfl

/-- Three seats of which only the first and third are funded: the dealer
rotation can land the button on seat 0 with the broke seat 1 next. -/
def c3Players : List Player :=
  [{ id := "a", name := "a", chips := 1000, hand := [], isActive := true,
     isAllIn := false, currentBet := 0, actionMessage := none },
   { id := "b", name := "b", chips := 0, hand := [], isActive := true,
     isAllIn := false, currentBet := 0, actionMessage := none },
   { id := "c", name := "c", chips := 1000, hand := [], isActive := true,
     isAllIn := false, currentBet := 0, actionMessage := none }]

/-- Witness for C3: the blind-seat characterisation applied to the
concrete three-seat list. -/
theorem claim_C3_blind_seats_witness :
    ((setupNewHand createDeck c3Players 2 0 []).players.getD
        (sbIndexOf c3Players 2) default).currentBet =
      min SMALL_BLIND (c3Players.getD (sbIndexOf c3Players 2) default).chips ∧
    (setupNewHand createDeck c3Players 2 0 []).dealerIndex =
      (2 + 1) % c3Players.length :=
  ⟨(claim_C3_blind_seats createDeck c3Players 2 0 [] (by decide)).1,
   (claim_C3_blind_seats createDeck c3Players 2 0 [] (by decide)).2.2.2.1⟩

/-- Counterexample to C3 as stated: with exactly two funded seats (0 and
2) and the advanced button on seat 0, the engine posts the big blind at
seat 1 — a seat with zero chips, which posts 0 and is marked all-in —
while seat 2, "the other seat with chips", posts nothing.  The final
bets are [10, 0, 0]. -/
theorem claim_C3_counterexample :
    (c3Players.filter (fun p => 0 < p.chips)).length = 2 ∧
    (setupNewHand createDeck c3Players 2 0 []).dealerIndex = 0 ∧
    ((setupNewHand createDeck c3Players 2 0 []).players.map
      (fun p => p.currentBet)) = [10, 0, 0] ∧
    ((setupNewHand createDeck c3Players 2 0 []).players.getD 1 default).isAllIn = true ∧
    0 < (c3Players.getD 2 default).chips := by
  refine ⟨by decide, by decide, by decide, by decide, by decide⟩

theorem nextTurnLoop_spec :
    ∀ (ps : List Player) (start lc : Nat), start < ps.length →
      ∃ k : Nat,
        (nextTurnLoop ps start lc).2 = lc + k ∧
        (nextTurnLoop ps start lc).1 = (start + k) % ps.length ∧
        (∀ m, m < k → seatOk ps ((start + m) % ps.length) = false) ∧
        (seatOk ps (nextTurnLoop ps start lc).1 = true ∨ ps.length ≤ lc + k) := by
  intro ps start lc
  induction start, lc using nextTurnLoop.induct ps with
  | case1 start lc hcond ih =>
    intro hstart
    have hn : 0 < ps.length := by omega
    have hstart2 : (start + 1) % ps.length < ps.length := Nat.mod_lt _ hn
    obtain ⟨k, h2, h1, hscan, hfin⟩ := ih hstart2
    have hloop : nextTurnLoop ps start lc =
        nextTurnLoop ps ((start + 1) % ps.length) (lc + 1) := by
      rw [nextTurnLoop]
      rw [dif_pos hcond]
    refine ⟨k + 1, ?_, ?_, ?_, ?_⟩
    · rw [hloop, h2]; omega
    · rw [hloop, h1, Nat.mod_add_mod]
      congr 1
      omega
    · intro m hm
      cases m with
      | zero =>
        rw [Nat.add_zero, Nat.mod_eq_of_lt hstart]
        exact hcond.1
      | succ m' =>
        have := hscan m' (by omega)
        rw [Nat.mod_add_mod] at this
        rw [show start + (m' + 1) = start + 1 + m' from by omega]
        exact this
    · rw [hloop]
      rcases hfin with h | h
      · exact Or.inl h
      · exact Or.inr (by omega)
  | case2 start lc hcond =>
    intro hstart
    have hloop : nextTurnLoop ps start lc = (start, lc) := by
      rw [nextTurnLoop]
      rw [dif_neg hcond]
    rcases Decidable.not_and_iff_or_not.1 hcond with h | h
    · refine ⟨0, by rw [hloop]; rfl, by rw [hloop]; exact (Nat.mod_eq_of_lt hstart).symm,
        fun m hm => absurd hm (by omega), Or.inl ?_⟩
      rw [hloop]
      simp only []
      cases hb : seatOk ps start with
      | false => exact absurd hb h
      | true => rfl
    · exact ⟨0, by rw [hloop]; rfl, by rw [hloop]; exact (Nat.mod_eq_of_lt hstart).symm,
        fun m hm => absurd hm (by omega), Or.inr (by omega)⟩

theorem residue_cover {n : Nat} (start j : Nat) (hs : start < n) (hj : j < n) :
    ∃ m, m < n ∧ (start + m) % n = j := by
  by_cases hle : start ≤ j
  · refine ⟨j - start, by omega, ?_⟩
    rw [show start + (j - start) = j from by omega, Nat.mod_eq_of_lt hj]
  · refine ⟨j + n - start, by omega, ?_⟩
    rw [show start + (j + n - start) = j + n from by omega, Nat.add_mod_right,
        Nat.mod_eq_of_lt hj]

/-- C6: `nextTurn` never hands the turn to a folded or all-in seat.  When
no seat can act at all it delegates to street advancement; otherwise its
scan stops, within one lap, at the first seat after `currentPlayerIndex`
that is active and not all-in, and then either delegates to street
advancement (when that seat is the last raiser with a matched bet — the
round is closed) or returns the state with only `currentPlayerIndex`
changed, pointing at that seat. -/
theorem claim_C6_advanceTurn (st : GameState) (hne : st.players ≠ []) :
    ((∀ j, j < st.players.length → seatOk st.players j = false) →
      nextTurn st = nextPhase st) ∧
    ((∃ j, j < st.players.length ∧ seatOk st.players j = true) →
      seatOk st.players (nextTurnScan st).1 = true ∧
      (nextTurnScan st).2 < st.players.length ∧
      (nextTurnScan st).1 =
        ((st.currentPlayerIndex + 1) % st.players.length + (nextTurnScan st).2) %
          st.players.length ∧
      (∀ m, m < (nextTurnScan st).2 →
        seatOk st.players
          (((st.currentPlayerIndex + 1) % st.players.length + m) %
            st.players.length) = false) ∧
      ((st.lastRaiserIndex = some (nextTurnScan st).1 ∧
        (st.players.getD (nextTurnScan st).1 default).currentBet = st.currentBet) →
        nextTurn st = nextPhase st) ∧
      (¬(st.lastRaiserIndex = some (nextTurnScan st).1 ∧
         (st.players.getD (nextTurnScan st).1 default).currentBet = st.currentBet) →
        nextTurn st = { st with currentPlayerIndex := (nextTurnScan st).1 })) := by
  have hn : 0 < st.players.length := List.length_pos.2 hne
  have hstart : (st.currentPlayerIndex + 1) % st.players.length < st.players.length :=
    Nat.mod_lt _ hn
  obtain ⟨k, h2, h1, hscan, hfin⟩ :=
    nextTurnLoop_spec st.players ((st.currentPlayerIndex + 1) % st.players.length) 0 hstart
  have hscaneq : nextTurnScan st =
      nextTurnLoop st.players ((st.currentPlayerIndex + 1) % st.players.length) 0 := rfl
  constructor
  · intro hall
    have hkn : st.players.length ≤ k := by
      rcases hfin with hok | hlen
      · exfalso
        have hlt : (nextTurnLoop st.players
            ((st.currentPlayerIndex + 1) % st.players.length) 0).1 < st.players.length := by
          rw [h1]
          exact Nat.mod_lt _ hn
        rw [hall _ hlt] at hok
        exact Bool.false_ne_true hok
      · omega
    unfold nextTurn
    rw [if_pos (by rw [hscaneq, h2]; omega)]
  · rintro ⟨j, hj, hjok⟩
    have hkn : k < st.players.length := by
      by_contra hge
      obtain ⟨m, hm, hmj⟩ := residue_cover
        ((st.currentPlayerIndex + 1) % st.players.length) j hstart hj
      have := hscan m (by omega)
      rw [hmj] at this
      rw [this] at hjok
      exact Bool.false_ne_true hjok
    have hok : seatOk st.players (nextTurnScan st).1 = true := by
      rcases hfin with hok | hlen
      · rw [hscaneq]; exact hok
      · omega
    refine ⟨hok, by rw [hscaneq, h2]; omega, by rw [hscaneq, h1, h2, Nat.zero_add], ?_, ?_, ?_⟩
    · intro m hm
      rw [hscaneq, h2] at hm
      exact hscan m (by omega)
    · intro hclose
      unfold nextTurn
      rw [if_neg (by rw [hscaneq, h2]; omega)]
      rw [if_pos hclose]
    · intro hclose
      unfold nextTurn
      rw [if_neg (by rw [hscaneq, h2]; omega)]
      rw [if_neg hclose]

/-- A three-seat state whose middle seat has folded: the scan from seat 0
must skip it. -/
def c6State : GameState :=
  { phase := .flop, pot := 60, communityCards := [], deck := [],
    players :=
      [{ id := "a", name := "a", chips := 100, hand := [], isActive := true,
         isAllIn := false, currentBet := 0, actionMessage := none },
       { id := "b", name := "b", chips := 100, hand := [], isActive := false,
         isAllIn := false, currentBet := 0, actionMessage := none },
       { id := "c", name := "c", chips := 100, hand := [], isActive := true,
         isAllIn := false, currentBet := 0, actionMessage := none }],
    currentPlayerIndex := 0, dealerIndex := 0, minBet := 20, currentBet := 0,
    lastRaiserIndex := none, roundLog := [], deckColor := "blue",
    winners := [], winningHandDesc := "", lastPotSize := 0, handHistory := [],
    handCount := 1 }

/-- Witness for C6: on the concrete state the scan lands on a seat that
can act, and (the round not being closed — there is no last raiser) only
the turn pointer changes. -/
theorem claim_C6_advanceTurn_witness :
    seatOk c6State.players (nextTurnScan c6State).1 = true ∧
    nextTurn c6State = { c6State with currentPlayerIndex := (nextTurnScan c6State).1 } :=
  ⟨((claim_C6_advanceTurn c6State (by decide)).2 ⟨0, by decide, by decide⟩).1,
   ((claim_C6_advanceTurn c6State (by decide)).2 ⟨0, by decide, by decide⟩).2.2.2.2.2
     (by simp [c6State])⟩
